import Mathlib

/-!
# Sudoku generator (`script.js`): shallow embedding and verified properties

The JavaScript program keeps a 9x9 board of cells, each `null` or a number.
The embedding below follows `script.js` function by function.

* A board is a list of rows, a row a list of cells, a cell an `Option Nat`
  (`none` is `EMPTY_CELL`, that is `null`).
* `Math.random()` is a stream `rnd : Nat → Nat` read at a cursor `k`; the
  expression `Math.floor(Math.random() * n)` is `rnd k % n`, so that every
  integer of `0 .. n-1` can be drawn and nothing else.  Functions that draw
  random numbers return the advanced cursor.
* Every board access is checked: reading or writing outside the board is
  reported as `Fault.outOfBounds` (JavaScript would read `undefined` or throw
  a `TypeError` there).
* Recursion and the `while` loop are driven by a fuel counter; running out of
  fuel is reported as `Fault.outOfFuel`.
-/

namespace Sudoku

/-! ## Data model -/

/-- Cell of the board: `none` is `EMPTY_CELL` (`null`), `some d` a stored number. -/
abbrev Cell := Option Nat

/-- Board as an array of rows. -/
abbrev Board := List (List Cell)

/-- Constant `BOARD_SIZE` of the script. -/
def BOARD_SIZE : Nat := 9

/-- Constant `EMPTY_CELL` of the script. -/
def EMPTY_CELL : Cell := none

/-- Reasons for which a run of the embedded program yields no value. -/
inductive Fault where
  | outOfBounds
  | outOfFuel
  deriving DecidableEq, Repr

/-- Read `board[row][col]`, checked. -/
def cellAt (board : Board) (row col : Nat) : Except Fault Cell :=
  match board[row]? with
  | none => .error .outOfBounds
  | some r =>
    match r[col]? with
    | none => .error .outOfBounds
    | some c => .ok c

/-- Assignment `board[row][col] = v`, checked. -/
def setCell (board : Board) (row col : Nat) (v : Cell) : Except Fault Board :=
  match board[row]? with
  | none => .error .outOfBounds
  | some r => if col < r.length then .ok (board.set row (r.set col v)) else .error .outOfBounds

/-- The board built in `generateRandomSudoku`:
`Array.from({ length: BOARD_SIZE }, () => Array.from({ length: BOARD_SIZE }, () => EMPTY_CELL))`. -/
def emptyBoard : Board :=
  List.replicate BOARD_SIZE (List.replicate BOARD_SIZE EMPTY_CELL)

/-! ## `shuffleArray` -/

/-- The destructuring swap `[array[i], array[j]] = [array[j], array[i]]`. -/
def swapAt {α : Type} (array : List α) (i j : Nat) : List α :=
  match array[i]?, array[j]? with
  | some x, some y => (array.set i y).set j x
  | _, _ => array

/-- Loop of `shuffleArray`, entered with loop variable `i`; runs while `i > 0`. -/
def shuffleLoop {α : Type} (rnd : Nat → Nat) : Nat → List α → Nat → List α × Nat
  | 0, array, k => (array, k)
  | i + 1, array, k =>
    let j := rnd k % (i + 1 + 1)
    shuffleLoop rnd i (swapAt array (i + 1) j) (k + 1)

/-- Function `shuffleArray(array)`. -/
def shuffleArray {α : Type} (rnd : Nat → Nat) (array : List α) (k : Nat) : List α × Nat :=
  shuffleLoop rnd (array.length - 1) array k

/-! ## `isNumberInBox` and `isValidMove` -/

/-- Function `isNumberInBox(board, startRow, startCol, num)`: two nested loops
over `0..2` that return `true` at the first cell equal to `num`. -/
def isNumberInBox (board : Board) (startRow startCol num : Nat) : Except Fault Bool :=
  (List.range 3).anyM fun i =>
    (List.range 3).anyM fun j =>
      match cellAt board (startRow + i) (startCol + j) with
      | .error e => .error e
      | .ok c => .ok (c == some num)

/-- The array `board.map(r => r[col])`, checked. -/
def columnOf (board : Board) (col : Nat) : Except Fault (List Cell) :=
  board.mapM fun r =>
    match r[col]? with
    | none => .error .outOfBounds
    | some c => .ok c

/-- Function `isValidMove(board, row, col, num)`; the conjunction is
short-circuiting as `&&` is. -/
def isValidMove (board : Board) (row col num : Nat) : Except Fault Bool :=
  match board[row]? with
  | none => .error .outOfBounds
  | some r =>
    if r.contains (some num) then .ok false
    else
      match columnOf board col with
      | .error e => .error e
      | .ok column =>
        if column.contains (some num) then .ok false
        else
          match isNumberInBox board (row - row % 3) (col - col % 3) num with
          | .error e => .error e
          | .ok inBox => .ok (!inBox)

/-! ## `generateRandomSolution` -/

/-- The loop `for(const num of numbers)` of `generateRandomSolution`; `recur`
stands for the recursive call `generateRandomSolution(board, row + 1, col)`. -/
def tryNumbers (recur : Board → Nat → Except Fault (Bool × Board × Nat)) (row col : Nat) :
    List Nat → Board → Nat → Except Fault (Bool × Board × Nat)
  | [], board, k => .ok (false, board, k)
  | num :: rest, board, k =>
    match isValidMove board row col num with
    | .error e => .error e
    | .ok false => tryNumbers recur row col rest board k
    | .ok true =>
      match setCell board row col (some num) with
      | .error e => .error e
      | .ok board1 =>
        match recur board1 k with
        | .error e => .error e
        | .ok (true, board2, k2) => .ok (true, board2, k2)
        | .ok (false, board2, k2) =>
          match setCell board2 row col EMPTY_CELL with
          | .error e => .error e
          | .ok board3 => tryNumbers recur row col rest board3 k2

/-- Function `generateRandomSolution(board, row, col)`.  The result is the
returned boolean, the board as mutated by the call, and the random cursor. -/
def generateRandomSolution (rnd : Nat → Nat) :
    Nat → Board → Nat → Nat → Nat → Except Fault (Bool × Board × Nat)
  | 0, _, _, _, _ => .error .outOfFuel
  | fuel + 1, board, row, col, k =>
    let row1 := if row = BOARD_SIZE then 0 else row
    let col1 := if row = BOARD_SIZE then col + 1 else col
    if row = BOARD_SIZE ∧ col1 = BOARD_SIZE then .ok (true, board, k)
    else
      let shuffled := shuffleArray rnd ((List.range BOARD_SIZE).map (· + 1)) k
      tryNumbers (fun b k1 => generateRandomSolution rnd fuel b (row1 + 1) col1 k1)
        row1 col1 shuffled.1 board shuffled.2

/-! ## `removeNumbers` and `generateRandomSudoku` -/

/-- The `switch(difficulty)` of `removeNumbers`: the value given to `cellsToKeep`. -/
def cellsToKeep (difficulty : String) : Nat :=
  if difficulty = "easy" then 55
  else if difficulty = "medium" then 40
  else if difficulty = "hard" then 25
  else 55

/-- The loop `while(cellsRemaining > cellsToKeep)` of `removeNumbers`; each
iteration draws a row and a column. -/
def removeLoop (rnd : Nat → Nat) (toKeep : Nat) :
    Nat → Board → Nat → Nat → Except Fault (Board × Nat)
  | 0, _, _, _ => .error .outOfFuel
  | fuel + 1, board, cellsRemaining, k =>
    if cellsRemaining > toKeep then
      let row := rnd k % BOARD_SIZE
      let col := rnd (k + 1) % BOARD_SIZE
      match cellAt board row col with
      | .error e => .error e
      | .ok c =>
        if c ≠ EMPTY_CELL then
          match setCell board row col EMPTY_CELL with
          | .error e => .error e
          | .ok board1 => removeLoop rnd toKeep fuel board1 (cellsRemaining - 1) (k + 2)
        else removeLoop rnd toKeep fuel board cellsRemaining (k + 2)
    else .ok (board, k)

/-- Function `removeNumbers(board, difficulty)`: the board as mutated, and the
random cursor. -/
def removeNumbers (rnd : Nat → Nat) (fuel : Nat) (board : Board) (difficulty : String)
    (k : Nat) : Except Fault (Board × Nat) :=
  removeLoop rnd (cellsToKeep difficulty) fuel board (BOARD_SIZE * BOARD_SIZE) k

/-- Function `generateRandomSudoku()`, reading the global `difficulty`: the pair
`[initialSudoku, sudoku]` and the random cursor.  The boolean returned by
`generateRandomSolution` is dropped, as in the script. -/
def generateRandomSudoku (rnd : Nat → Nat) (fuel : Nat) (difficulty : String) (k : Nat) :
    Except Fault ((Board × Board) × Nat) :=
  match generateRandomSolution rnd fuel emptyBoard 0 0 k with
  | .error e => .error e
  | .ok (_, sudoku, k1) =>
    let initialSudoku := sudoku.map fun row => row.map id
    match removeNumbers rnd fuel initialSudoku difficulty k1 with
    | .error e => .error e
    | .ok (initialSudoku1, k2) => .ok ((initialSudoku1, sudoku), k2)

/-! ## `isSudokuCorrect` -/

/-- Function `isSudokuCorrect()`, reading the globals `sudokuBoard` and
`solutionBoard`: two nested loops that return `false` at the first differing cell. -/
def isSudokuCorrect (sudokuBoard solutionBoard : Board) : Except Fault Bool :=
  (List.range BOARD_SIZE).allM fun i =>
    (List.range BOARD_SIZE).allM fun j =>
      match cellAt sudokuBoard i j with
      | .error e => .error e
      | .ok x =>
        match cellAt solutionBoard i j with
        | .error e => .error e
        | .ok y => .ok (x == y)

/-! ## `displaySudoku` and `handleCellInput` -/

/-- The part of an `<input>` element that the script reads or writes. -/
structure InputCell where
  value : String
  readOnly : Bool
  deriving DecidableEq, Repr

/-- The input element that `displaySudoku()` creates for a cell holding `c`:
`value` is the number or the empty text, `readOnly` is `c !== EMPTY_CELL`. -/
def inputFor (c : Cell) : InputCell :=
  { value := match c with
             | some d => toString d
             | none => ""
    readOnly := c ≠ EMPTY_CELL }

/-- The input elements created by `displaySudoku()` from the global `sudokuBoard`. -/
def displaySudoku (sudokuBoard : Board) : Except Fault (List (List InputCell)) :=
  (List.range BOARD_SIZE).mapM fun i =>
    (List.range BOARD_SIZE).mapM fun j =>
      match cellAt sudokuBoard i j with
      | .error e => .error e
      | .ok c => .ok (inputFor c)

/-- Function `handleCellInput(row, col, cell)` on the global `sudokuBoard`.
The built-in `parseInt` is a parameter; `none` is its result `NaN`.  The result
is the board and the input element after the call. -/
def handleCellInput (parseInt : String → Option Int) (sudokuBoard : Board) (row col : Nat)
    (cell : InputCell) : Except Fault (Board × InputCell) :=
  match parseInt cell.value with
  | some inputValue =>
    if inputValue ≥ 1 ∧ inputValue ≤ 9 then
      match setCell sudokuBoard row col (some inputValue.toNat) with
      | .error e => .error e
      | .ok board1 => .ok (board1, cell)
    else .ok (sudokuBoard, { cell with value := "" })
  | none => .ok (sudokuBoard, { cell with value := "" })

/-! ## The globals: `initialiseBoard`, `changeDifficulty` -/

/-- The global variables `sudokuBoard`, `solutionBoard` and `difficulty`. -/
structure Session where
  sudokuBoard : Board
  solutionBoard : Board
  difficulty : String
  deriving DecidableEq, Repr

/-- The globals as the script declares them, before the page is loaded. -/
def initialSession : Session :=
  { sudokuBoard := [], solutionBoard := [], difficulty := "easy" }

/-- Function `initialiseBoard()`: the globals after the call, the input elements
built by `displaySudoku()`, and the random cursor. -/
def initialiseBoard (rnd : Nat → Nat) (fuel : Nat) (s : Session) (k : Nat) :
    Except Fault (Session × List (List InputCell) × Nat) :=
  match generateRandomSudoku rnd fuel s.difficulty k with
  | .error e => .error e
  | .ok ((initialSudoku, sudoku), k1) =>
    match displaySudoku initialSudoku with
    | .error e => .error e
    | .ok views => .ok ({ s with sudokuBoard := initialSudoku, solutionBoard := sudoku }, views, k1)

/-- Function `changeDifficulty(selectedDifficulty)`. -/
def changeDifficulty (rnd : Nat → Nat) (fuel : Nat) (s : Session) (selectedDifficulty : String)
    (k : Nat) : Except Fault (Session × List (List InputCell) × Nat) :=
  initialiseBoard rnd fuel { s with difficulty := selectedDifficulty } k

/-- Function `handleCellInput(row, col, cell)` as it acts on the globals: only
`sudokuBoard` is assigned. -/
def handleCellInputOn (parseInt : String → Option Int) (s : Session) (row col : Nat)
    (cell : InputCell) : Except Fault (Session × InputCell) :=
  match handleCellInput parseInt s.sudokuBoard row col cell with
  | .error e => .error e
  | .ok (board1, cell1) => .ok ({ s with sudokuBoard := board1 }, cell1)

/-! ## Vocabulary of the statements -/

/-- A board of 9 rows of 9 cells. -/
def Grid9 (b : Board) : Prop := b.length = 9 ∧ ∀ r ∈ b, r.length = 9

instance (b : Board) : Decidable (Grid9 b) := by unfold Grid9; infer_instance

/-- Value of `board[i][j]` on a board that has this cell (`none` elsewhere). -/
def cell (b : Board) (i j : Nat) : Cell := (b.getD i []).getD j none

/-- The board with `board[i][j]` replaced by `v`. -/
def put (b : Board) (i j : Nat) (v : Cell) : Board := b.set i ((b.getD i []).set j v)

/-- Number of non-empty cells of a board. -/
def countFilled (b : Board) : Nat := (b.map fun r => r.countP Option.isSome).sum

/-- No digit is stored twice in a row, a column or an aligned 3x3 box: two
cells that hold the same digit and share a row, a column or a box are the same cell. -/
def Consistent (b : Board) : Prop :=
  ∀ i < 9, ∀ j < 9, ∀ i1 < 9, ∀ j1 < 9,
    cell b i j ≠ none ∧ cell b i j = cell b i1 j1 ∧
      (i = i1 ∨ j = j1 ∨ (i / 3 = i1 / 3 ∧ j / 3 = j1 / 3)) → i = i1 ∧ j = j1

set_option synthInstance.maxSize 1024 in
instance (b : Board) : Decidable (Consistent b) := by unfold Consistent; infer_instance

/-- Every stored value is a digit of 1..9. -/
def DigitsOnly (b : Board) : Prop :=
  ∀ i < 9, ∀ j < 9, cell b i j = none ∨ ∃ d, cell b i j = some d ∧ 1 ≤ d ∧ d ≤ 9

/-- No cell is empty. -/
def Full (b : Board) : Prop := ∀ i < 9, ∀ j < 9, cell b i j ≠ none

instance (b : Board) : Decidable (Full b) := by unfold Full; infer_instance

/-- Every filled cell of `b` holds the same value in `s`. -/
def Extends (b s : Board) : Prop :=
  ∀ i < 9, ∀ j < 9, cell b i j ≠ none → cell s i j = cell b i j

/-- The cells of row `i`. -/
def rowCells (b : Board) (i : Nat) : List Cell := (List.range 9).map fun j => cell b i j

/-- The cells of column `j`. -/
def colCells (b : Board) (j : Nat) : List Cell := (List.range 9).map fun i => cell b i j

/-- The cells of the aligned box whose top-left corner is `(3 * bi, 3 * bj)`. -/
def boxCells (b : Board) (bi bj : Nat) : List Cell :=
  (List.range 9).map fun t => cell b (3 * bi + t / 3) (3 * bj + t % 3)

/-- A complete valid Sudoku grid: 9x9, every cell a digit of 1..9, and every
row, column and aligned box holds each digit exactly once. -/
def ValidSolution (b : Board) : Prop :=
  Grid9 b ∧ (∀ i < 9, ∀ j < 9, ∃ d, cell b i j = some d ∧ 1 ≤ d ∧ d ≤ 9) ∧
  ∀ u < 9, ∀ d, 1 ≤ d → d ≤ 9 →
    (rowCells b u).count (some d) = 1 ∧ (colCells b u).count (some d) = 1 ∧
    (boxCells b (u / 3) (u % 3)).count (some d) = 1

/-- The two boards hold the same value at each of the 81 positions. -/
def SameCells (p s : Board) : Prop := ∀ i < 9, ∀ j < 9, cell p i j = cell s i j

instance (p s : Board) : Decidable (SameCells p s) := by unfold SameCells; infer_instance

/-- The digit `num` occurs in none of the 9 cells of the box with top-left corner `(sr, sc)`. -/
def BoxFree (b : Board) (sr sc num : Nat) : Prop :=
  ∀ i < 3, ∀ j < 3, cell b (sr + i) (sc + j) ≠ some num

instance (b : Board) (sr sc num : Nat) : Decidable (BoxFree b sr sc num) := by
  unfold BoxFree; infer_instance

/-- The digit `num` occurs in none of the cells of row `row`, of column `col`
and of the 3x3 box whose top-left corner is `(row - row % 3, col - col % 3)`. -/
def Absent (b : Board) (row col num : Nat) : Prop :=
  (∀ j < 9, cell b row j ≠ some num) ∧ (∀ i < 9, cell b i col ≠ some num) ∧
  ∀ i < 3, ∀ j < 3, cell b (row - row % 3 + i) (col - col % 3 + j) ≠ some num

instance (b : Board) (row col num : Nat) : Decidable (Absent b row col num) := by
  unfold Absent; infer_instance

/-- The filled cells are exactly those before position `p` of the traversal of
`generateRandomSolution`, which runs down column 0, then column 1, and so on. -/
def FilledBefore (b : Board) (p : Nat) : Prop :=
  ∀ i < 9, ∀ j < 9, (cell b i j ≠ none ↔ 9 * j + i < p)

/-- A board as `generateRandomSolution` holds it on reaching position `p`. -/
def Partial (b : Board) (p : Nat) : Prop :=
  Grid9 b ∧ FilledBefore b p ∧ Consistent b ∧ DigitsOnly b

/-- A 9x9 board without empty cell, holding digits of 1..9, none twice in a
row, column or box. -/
def Complete (b : Board) : Prop := Grid9 b ∧ Full b ∧ Consistent b ∧ DigitsOnly b

/-- Some complete board extends the filled cells of `b`. -/
def Solvable (b : Board) : Prop := ∃ s, Complete s ∧ Extends b s

/-- What a run of the generator from board `b` may yield: `outOfFuel` (only
when `short` holds), or `false` with the board restored (only when `dead`
holds), or `true` with a complete board that extends `b`. -/
def GenPost (b : Board) (short dead : Prop) (res : Except Fault (Bool × Board × Nat)) : Prop :=
  (res = .error .outOfFuel ∧ short) ∨
  ∃ r b1 k1, res = .ok (r, b1, k1) ∧ (r = false → b1 = b ∧ dead) ∧
    (r = true → Complete b1 ∧ Extends b b1)

/-- A solved grid used to show that the empty board can be completed. -/
def sampleSolution : Board :=
  [[some 1, some 2, some 3, some 4, some 5, some 6, some 7, some 8, some 9],
   [some 4, some 5, some 6, some 7, some 8, some 9, some 1, some 2, some 3],
   [some 7, some 8, some 9, some 1, some 2, some 3, some 4, some 5, some 6],
   [some 2, some 3, some 4, some 5, some 6, some 7, some 8, some 9, some 1],
   [some 5, some 6, some 7, some 8, some 9, some 1, some 2, some 3, some 4],
   [some 8, some 9, some 1, some 2, some 3, some 4, some 5, some 6, some 7],
   [some 3, some 4, some 5, some 6, some 7, some 8, some 9, some 1, some 2],
   [some 6, some 7, some 8, some 9, some 1, some 2, some 3, some 4, some 5],
   [some 9, some 1, some 2, some 3, some 4, some 5, some 6, some 7, some 8]]

/-- Random draws under which every shuffle of `generateRandomSolution` puts the
digit of `sampleSolution` first: the cell visited `n`-th reads draws `8n .. 8n+7`. -/
def sampleChoices (m : Nat) : Nat :=
  if 8 - m % 8 + 1 = (cell sampleSolution (m / 8 % 9) (m / 8 / 9)).getD 0 then 0 else 8 - m % 8

/-- Random draws under which `removeNumbers` picks the cells in reading order:
the `n`-th pick reads draws `2n` and `2n+1`. -/
def sampleWalk (m : Nat) : Nat :=
  if m % 2 = 0 then m / 2 / 9 else m / 2 % 9

/-- The draws of `sampleChoices` for the generator, followed by those of `sampleWalk`. -/
def sampleStream (m : Nat) : Nat :=
  if m < 648 then sampleChoices m else sampleWalk (m - 648)

/-- Board `sampleSolution` with its first 56 cells in reading order cleared. -/
def sampleHardPuzzle : Board :=
  [[none, none, none, none, none, none, none, none, none],
   [none, none, none, none, none, none, none, none, none],
   [none, none, none, none, none, none, none, none, none],
   [none, none, none, none, none, none, none, none, none],
   [none, none, none, none, none, none, none, none, none],
   [none, none, none, none, none, none, none, none, none],
   [none, none, some 5, some 6, some 7, some 8, some 9, some 1, some 2],
   [some 6, some 7, some 8, some 9, some 1, some 2, some 3, some 4, some 5],
   [some 9, some 1, some 2, some 3, some 4, some 5, some 6, some 7, some 8]]

/-- The all-empty board except for a 5 stored at position (0, 0). -/
def loneFive : Board := put emptyBoard 0 0 (some 5)

/-- A stand-in for `parseInt` on the texts used in the examples: the decimal
texts of 0..9 are read as their number, every other text as `NaN`. -/
def sampleParseInt (s : String) : Option Int :=
  ((List.range 10).find? fun d => toString d == s).map Int.ofNat

/-- The 81 positions in reading order. -/
def allPositions : List (Nat × Nat) :=
  (List.range BOARD_SIZE).flatMap fun i => (List.range BOARD_SIZE).map fun j => (i, j)

/-- The scenario in which the player types, into every empty cell of the puzzle
among the positions listed, the digit that the solution holds there: each such
entry is one call of `handleCellInput` on an input element showing that digit. -/
def fillFromSolution (parseInt : String → Option Int) (solution : Board) :
    List (Nat × Nat) → Board → Except Fault Board
  | [], puzzle => .ok puzzle
  | (i, j) :: rest, puzzle =>
    match cellAt puzzle i j with
    | .error e => .error e
    | .ok (some _) => fillFromSolution parseInt solution rest puzzle
    | .ok none =>
      match cellAt solution i j with
      | .error e => .error e
      | .ok none => fillFromSolution parseInt solution rest puzzle
      | .ok (some d) =>
        match handleCellInput parseInt puzzle i j { value := toString d, readOnly := false } with
        | .error e => .error e
        | .ok (puzzle1, _) => fillFromSolution parseInt solution rest puzzle1

/-- The cells at and after position `p` of the traversal are empty. -/
def EmptyFrom (b : Board) (p : Nat) : Prop :=
  ∀ i < 9, ∀ j < 9, p ≤ 9 * j + i → cell b i j = none

instance (b : Board) (p : Nat) : Decidable (EmptyFrom b p) := by unfold EmptyFrom; infer_instance

/-- A board on which the call at position (0, 8) places digits and takes them
back: row 1 holds 1..8 and the box of (0, 8) holds 9, so that at (0, 8) the
digits 1..6 are accepted, and at (1, 8) no digit is. -/
def undoBoard : Board :=
  [[none, none, none, none, none, none, none, none, none],
   [some 1, some 2, some 3, some 4, some 5, some 6, some 7, some 8, none],
   [none, none, none, none, none, none, some 9, none, none],
   [none, none, none, none, none, none, none, none, none],
   [none, none, none, none, none, none, none, none, none],
   [none, none, none, none, none, none, none, none, none],
   [none, none, none, none, none, none, none, none, none],
   [none, none, none, none, none, none, none, none, none],
   [none, none, none, none, none, none, none, none, none]]

/-- A second solved grid. -/
def otherSolution : Board :=
  [[some 5, some 7, some 8, some 2, some 6, some 4, some 1, some 9, some 3],
   [some 2, some 1, some 4, some 5, some 9, some 3, some 7, some 8, some 6],
   [some 6, some 9, some 3, some 7, some 1, some 8, some 5, some 4, some 2],
   [some 7, some 2, some 5, some 6, some 4, some 9, some 8, some 3, some 1],
   [some 1, some 4, some 6, some 8, some 3, some 2, some 9, some 5, some 7],
   [some 8, some 3, some 9, some 1, some 7, some 5, some 2, some 6, some 4],
   [some 9, some 6, some 2, some 4, some 5, some 1, some 3, some 7, some 8],
   [some 4, some 5, some 1, some 3, some 8, some 7, some 6, some 2, some 9],
   [some 3, some 8, some 7, some 9, some 2, some 6, some 4, some 1, some 5]]

/-- Random draws under which every shuffle of `generateRandomSolution` puts the
digit of `otherSolution` first, built as `sampleChoices` is. -/
def otherChoices (m : Nat) : Nat :=
  if 8 - m % 8 + 1 = (cell otherSolution (m / 8 % 9) (m / 8 / 9)).getD 0 then 0 else 8 - m % 8

/-- A vector of swap indices for `shuffleArray` on an array of 9 elements:
component `t` is the index `j` drawn at the `t`-th iteration, whose loop variable
is `i = 8 - t`, so that `0 ≤ j ≤ i`. -/
abbrev SwapIndices := (t : Fin 8) → Fin (9 - t.val)

/-- A stream of draws whose first 8 values are the swap indices `v`. -/
def streamOf (v : SwapIndices) (m : Nat) : Nat :=
  if h : m < 8 then (v ⟨m, h⟩).val else 0

/-- The swap indices that `shuffleArray` derives from the draws `k .. k+7` on an
array of 9 elements. -/
def indicesOf (rnd : Nat → Nat) (k : Nat) : SwapIndices :=
  fun t => ⟨rnd (k + t.val) % (9 - t.val), Nat.mod_lt _ (by have := t.isLt; omega)⟩

/-- The array returned by `shuffleArray` when the swap indices drawn are `v`. -/
def shuffleWith {α : Type} (v : SwapIndices) (array : List α) : List α :=
  (shuffleArray (streamOf v) array 0).1

/-- What a run of `generateRandomSolution` does, in order: `visit board row col`
is a call that goes on to try digits at the cell `(row, col)` of `board`, and
`check board row col num` an invocation `isValidMove(board, row, col, num)`. -/
inductive Event where
  | visit (board : Board) (row col : Nat)
  | check (board : Board) (row col num : Nat)
  deriving DecidableEq, Repr

/-- The events `evs`, followed by those of the run `x`. -/
def withEvents {α : Type} (evs : List Event) (x : Except Fault (α × List Event)) :
    Except Fault (α × List Event) :=
  match x with
  | .error e => .error e
  | .ok (r, evs1) => .ok (r, evs ++ evs1)

/-- The result of a traced run without its events. -/
def dropEvents {α : Type} (x : Except Fault (α × List Event)) : Except Fault α :=
  match x with
  | .error e => .error e
  | .ok (r, _) => .ok r

/-- The loop `tryNumbers`, recording its events. -/
def tryNumbersTraced (recur : Board → Nat → Except Fault ((Bool × Board × Nat) × List Event))
    (row col : Nat) : List Nat → Board → Nat → Except Fault ((Bool × Board × Nat) × List Event)
  | [], board, k => .ok ((false, board, k), [])
  | num :: rest, board, k =>
    withEvents [.check board row col num]
      (match isValidMove board row col num with
      | .error e => .error e
      | .ok false => tryNumbersTraced recur row col rest board k
      | .ok true =>
        match setCell board row col (some num) with
        | .error e => .error e
        | .ok board1 =>
          match recur board1 k with
          | .error e => .error e
          | .ok ((true, board2, k2), evs1) => .ok ((true, board2, k2), evs1)
          | .ok ((false, board2, k2), evs1) =>
            match setCell board2 row col EMPTY_CELL with
            | .error e => .error e
            | .ok board3 => withEvents evs1 (tryNumbersTraced recur row col rest board3 k2))

/-- Function `generateRandomSolution`, recording its events. -/
def generateTraced (rnd : Nat → Nat) :
    Nat → Board → Nat → Nat → Nat → Except Fault ((Bool × Board × Nat) × List Event)
  | 0, _, _, _, _ => .error .outOfFuel
  | fuel + 1, board, row, col, k =>
    let row1 := if row = BOARD_SIZE then 0 else row
    let col1 := if row = BOARD_SIZE then col + 1 else col
    if row = BOARD_SIZE ∧ col1 = BOARD_SIZE then .ok ((true, board, k), [])
    else
      let shuffled := shuffleArray rnd ((List.range BOARD_SIZE).map (· + 1)) k
      withEvents [.visit board row1 col1]
        (tryNumbersTraced (fun b k1 => generateTraced rnd fuel b (row1 + 1) col1 k1)
          row1 col1 shuffled.1 board shuffled.2)

/-- At an event the filled cells are exactly those before the cell concerned,
which is in range; at a check the digit is one of 1..9. -/
def Event.InOrder : Event → Prop
  | .visit b r c => r < 9 ∧ c < 9 ∧ FilledBefore b (9 * c + r)
  | .check b r c n => r < 9 ∧ c < 9 ∧ FilledBefore b (9 * c + r) ∧ 1 ≤ n ∧ n ≤ 9

/-! ## Lemmas: checked access on a 9x9 board -/

theorem grid9_row_length {b : Board} (hb : Grid9 b) {i : Nat} (hi : i < 9) :
    (b.getD i []).length = 9 := by
  have hlt : i < b.length := by rw [hb.1]; exact hi
  rw [List.getD_eq_getElem _ _ hlt]
  exact hb.2 _ (List.getElem_mem _)

theorem getElem?_of_grid9 {b : Board} (hb : Grid9 b) {i : Nat} (hi : i < 9) :
    b[i]? = some (b.getD i []) := by
  have hlt : i < b.length := by rw [hb.1]; exact hi
  rw [List.getD_eq_getElem _ _ hlt, List.getElem?_eq_getElem hlt]

theorem cellAt_of_grid9 {b : Board} (hb : Grid9 b) {i j : Nat} (hi : i < 9) (hj : j < 9) :
    cellAt b i j = .ok (cell b i j) := by
  have hlen := grid9_row_length hb hi
  have hj2 : j < (b.getD i []).length := by rw [hlen]; exact hj
  unfold cellAt cell
  rw [getElem?_of_grid9 hb hi]
  simp only [List.getElem?_eq_getElem hj2, List.getD_eq_getElem _ _ hj2]

theorem setCell_of_grid9 {b : Board} (hb : Grid9 b) {i j : Nat} (hi : i < 9) (hj : j < 9)
    (v : Cell) : setCell b i j v = .ok (put b i j v) := by
  have hlen := grid9_row_length hb hi
  unfold setCell put
  rw [getElem?_of_grid9 hb hi]
  show (if j < (b.getD i []).length then _ else _) = _
  rw [if_pos (by rw [hlen]; exact hj)]

theorem grid9_put {b : Board} (hb : Grid9 b) (i j : Nat) (v : Cell) : Grid9 (put b i j v) := by
  unfold put
  refine ⟨by simpa using hb.1, ?_⟩
  intro r hr
  rcases List.mem_or_eq_of_mem_set hr with h | h
  · exact hb.2 r h
  · subst h
    by_cases hi : i < 9
    · simpa using grid9_row_length hb hi
    · have : b.length ≤ i := by rw [hb.1]; omega
      rw [List.set_eq_of_length_le this] at hr
      exact hb.2 _ hr

theorem cell_put {b : Board} (hb : Grid9 b) {i j : Nat} (hi : i < 9) (hj : j < 9) (v : Cell)
    (i1 j1 : Nat) :
    cell (put b i j v) i1 j1 = if i1 = i ∧ j1 = j then v else cell b i1 j1 := by
  have hlt : i < b.length := by rw [hb.1]; exact hi
  have hlen := grid9_row_length hb hi
  unfold cell put
  by_cases h1 : i1 = i
  · subst h1
    by_cases h2 : j1 = j
    · subst h2
      have hj2 : j1 < (b[i1]).length := by
        rw [List.getD_eq_getElem _ _ hlt] at hlen; rw [hlen]; exact hj
      simp [List.getD_eq_getElem?_getD, hlt, hj2]
    · simp [List.getD_eq_getElem?_getD, hlt, h2, List.getElem?_set_ne (Ne.symm h2)]
  · simp [List.getD_eq_getElem?_getD, h1, List.getElem?_set_ne (Ne.symm h1)]

theorem board_ext {b c : Board} (hb : Grid9 b) (hc : Grid9 c)
    (h : ∀ i < 9, ∀ j < 9, cell b i j = cell c i j) : b = c := by
  apply List.ext_getElem (by rw [hb.1, hc.1])
  intro i h1 h2
  have hi : i < 9 := by rw [← hb.1]; exact h1
  have hbl := grid9_row_length hb hi
  have hcl := grid9_row_length hc hi
  rw [List.getD_eq_getElem _ _ h1] at hbl
  rw [List.getD_eq_getElem _ _ h2] at hcl
  apply List.ext_getElem (by rw [hbl, hcl])
  intro j h3 h4
  have hj : j < 9 := by rw [← hbl]; exact h3
  have := h i hi j hj
  unfold cell at this
  rw [List.getD_eq_getElem _ _ h1, List.getD_eq_getElem _ _ h2, List.getD_eq_getElem _ _ h3,
    List.getD_eq_getElem _ _ h4] at this
  exact this

theorem put_put_none {b : Board} (hb : Grid9 b) {i j : Nat} (hi : i < 9) (hj : j < 9)
    (v : Cell) (he : cell b i j = none) : put (put b i j v) i j none = b := by
  apply board_ext (grid9_put (grid9_put hb _ _ _) _ _ _) hb
  intro i1 _ j1 _
  rw [cell_put (grid9_put hb _ _ _) hi hj, cell_put hb hi hj]
  split
  · rename_i h; rw [h.1, h.2, he]
  · rfl

/-! ## Lemmas: loops with early exit -/

theorem anyM_ok {α : Type} (p : α → Except Fault Bool) (q : α → Bool) (l : List α)
    (h : ∀ a ∈ l, p a = .ok (q a)) : l.anyM p = .ok (l.any q) := by
  induction l with
  | nil => rfl
  | cons a as ih =>
    have ha := h a (List.mem_cons_self _ _)
    have ih1 := ih fun x hx => h x (List.mem_cons_of_mem _ hx)
    simp only [List.anyM, ha, ih1, bind, Except.bind, List.any_cons]
    cases q a <;> rfl

theorem allM_ok {α : Type} (p : α → Except Fault Bool) (q : α → Bool) (l : List α)
    (h : ∀ a ∈ l, p a = .ok (q a)) : l.allM p = .ok (l.all q) := by
  induction l with
  | nil => rfl
  | cons a as ih =>
    have ha := h a (List.mem_cons_self _ _)
    have ih1 := ih fun x hx => h x (List.mem_cons_of_mem _ hx)
    simp only [List.allM, ha, ih1, bind, Except.bind, List.all_cons]
    cases q a <;> rfl

theorem mapM_ok {α β : Type} (p : α → Except Fault β) (q : α → β) (l : List α)
    (h : ∀ a ∈ l, p a = .ok (q a)) : l.mapM p = .ok (l.map q) := by
  induction l with
  | nil => rfl
  | cons a as ih =>
    have ha := h a (List.mem_cons_self _ _)
    have ih1 := ih fun x hx => h x (List.mem_cons_of_mem _ hx)
    rw [List.mapM_cons, ha, ih1]
    rfl

/-! ## Lemmas: what `isValidMove` computes -/

theorem row_contains {b : Board} (hb : Grid9 b) {row : Nat} (hrow : row < 9) (c : Cell) :
    (b.getD row []).contains c = true ↔ ∃ j < 9, cell b row j = c := by
  have hlen := grid9_row_length hb hrow
  rw [List.contains_iff_exists_mem_beq]
  simp only [beq_iff_eq, exists_eq_right', List.mem_iff_getElem]
  unfold cell
  constructor
  · rintro ⟨j, hj, h⟩
    exact ⟨j, by rw [← hlen]; exact hj, by rw [List.getD_eq_getElem _ _ hj]; exact h⟩
  · rintro ⟨j, hj, h⟩
    have hj2 : j < (b.getD row []).length := by rw [hlen]; exact hj
    exact ⟨j, hj2, by rw [List.getD_eq_getElem _ _ hj2] at h; exact h⟩

theorem columnOf_of_grid9 {b : Board} (hb : Grid9 b) {col : Nat} (hcol : col < 9) :
    columnOf b col = .ok (b.map fun r => r.getD col none) := by
  unfold columnOf
  apply mapM_ok
  intro r hr
  have hlt : col < r.length := by rw [hb.2 r hr]; exact hcol
  simp only [List.getElem?_eq_getElem hlt, List.getD_eq_getElem _ _ hlt]

theorem column_contains {b : Board} (hb : Grid9 b) (col : Nat) (c : Cell) :
    (b.map fun r => r.getD col none).contains c = true ↔ ∃ i < 9, cell b i col = c := by
  rw [List.contains_iff_exists_mem_beq]
  simp only [beq_iff_eq, exists_eq_right', List.mem_map]
  unfold cell
  constructor
  · rintro ⟨r, hr, h⟩
    obtain ⟨i, hi, rfl⟩ := List.mem_iff_getElem.1 hr
    exact ⟨i, by rw [← hb.1]; exact hi, by rw [List.getD_eq_getElem _ _ hi]; exact h⟩
  · rintro ⟨i, hi, h⟩
    have hi2 : i < b.length := by rw [hb.1]; exact hi
    rw [List.getD_eq_getElem _ _ hi2] at h
    exact ⟨b[i], List.getElem_mem _, h⟩

theorem isNumberInBox_of_grid9 {b : Board} (hb : Grid9 b) {sr sc : Nat} (hsr : sr + 2 < 9)
    (hsc : sc + 2 < 9) (num : Nat) :
    isNumberInBox b sr sc num =
      .ok (!decide (BoxFree b sr sc num)) := by
  unfold isNumberInBox
  rw [anyM_ok _ (fun i => (List.range 3).any fun j => cell b (sr + i) (sc + j) == some num)]
  · congr 1
    rw [Bool.eq_iff_iff]
    simp only [List.any_eq_true, List.mem_range, beq_iff_eq, Bool.not_eq_true',
      decide_eq_false_iff_not, BoxFree]
    constructor
    · rintro ⟨i, hi, j, hj, h⟩ hall; exact hall i hi j hj h
    · intro h
      by_contra hne
      exact h fun i hi j hj hc => hne ⟨i, hi, j, hj, hc⟩
  · intro i hi
    rw [List.mem_range] at hi
    apply anyM_ok
    intro j hj
    rw [List.mem_range] at hj
    rw [cellAt_of_grid9 hb (by omega) (by omega)]

/-- On a 9x9 board and a position in range, `isValidMove` returns whether the
digit is absent from the row, the column and the box. -/
theorem isValidMove_of_grid9 {b : Board} (hb : Grid9 b) {row col : Nat} (hrow : row < 9)
    (hcol : col < 9) (num : Nat) :
    isValidMove b row col num = .ok (decide (Absent b row col num)) := by
  unfold isValidMove
  rw [getElem?_of_grid9 hb hrow]
  simp only
  by_cases h1 : (b.getD row []).contains (some num) = true
  · rw [if_pos h1]
    have : ¬ Absent b row col num := by
      rintro ⟨hr, -, -⟩
      obtain ⟨j, hj, h⟩ := (row_contains hb hrow _).1 h1
      exact hr j hj h
    simp [this]
  · rw [if_neg h1, columnOf_of_grid9 hb hcol]
    simp only
    by_cases h2 : (b.map fun r => r.getD col none).contains (some num) = true
    · rw [if_pos h2]
      have : ¬ Absent b row col num := by
        rintro ⟨-, hc, -⟩
        obtain ⟨i, hi, h⟩ := (column_contains hb col _).1 h2
        exact hc i hi h
      simp [this]
    · rw [if_neg h2, isNumberInBox_of_grid9 hb (by omega) (by omega)]
      simp only
      congr 1
      rw [Bool.eq_iff_iff]
      simp only [Bool.not_not, decide_eq_true_eq]
      constructor
      · intro h3
        exact ⟨fun j hj h => h1 ((row_contains hb hrow _).2 ⟨j, hj, h⟩),
          fun i hi h => h2 ((column_contains hb col _).2 ⟨i, hi, h⟩), h3⟩
      · exact fun h => h.2.2

/-! ## Lemmas: `shuffleArray` permutes its input -/

theorem perm_cons_set {α : Type} (x y : α) :
    ∀ (xs : List α) (j : Nat), xs[j]? = some y → List.Perm (y :: xs.set j x) (x :: xs)
  | [], j, h => by simp at h
  | z :: zs, 0, h => by
    simp only [List.getElem?_cons_zero, Option.some.injEq] at h
    subst h
    simpa using List.Perm.swap x z zs
  | z :: zs, j + 1, h => by
    simp only [List.getElem?_cons_succ] at h
    have ih := perm_cons_set x y zs j h
    simp only [List.set_cons_succ]
    exact ((List.Perm.swap z y _).trans (ih.cons z)).trans (List.Perm.swap x z zs)

theorem swapAt_perm {α : Type} : ∀ (a : List α) (i j : Nat), List.Perm (swapAt a i j) a
  | [], i, j => by simp [swapAt]
  | x :: xs, 0, 0 => by simp [swapAt]
  | x :: xs, 0, j + 1 => by
    unfold swapAt
    cases h : xs[j]? with
    | none => simp [h]
    | some y =>
      simp only [List.getElem?_cons_zero, List.getElem?_cons_succ, h, List.set_cons_zero,
        List.set_cons_succ]
      exact perm_cons_set x y xs j h
  | x :: xs, i + 1, 0 => by
    unfold swapAt
    cases h : xs[i]? with
    | none => simp [h]
    | some y =>
      simp only [List.getElem?_cons_zero, List.getElem?_cons_succ, h, List.set_cons_zero,
        List.set_cons_succ]
      exact perm_cons_set x y xs i h
  | x :: xs, i + 1, j + 1 => by
    have ih := swapAt_perm xs i j
    unfold swapAt at ih ⊢
    simp only [List.getElem?_cons_succ]
    cases h1 : xs[i]? with
    | none => simp
    | some u =>
      cases h2 : xs[j]? with
      | none => simp
      | some w =>
        simp only [h1, h2, List.set_cons_succ] at ih ⊢
        exact ih.cons x

theorem shuffleLoop_perm {α : Type} (rnd : Nat → Nat) :
    ∀ (i : Nat) (a : List α) (k : Nat), List.Perm (shuffleLoop rnd i a k).1 a
  | 0, a, k => by simp [shuffleLoop]
  | i + 1, a, k => by
    unfold shuffleLoop
    exact (shuffleLoop_perm rnd i _ _).trans (swapAt_perm a _ _)

theorem shuffleArray_perm {α : Type} (rnd : Nat → Nat) (a : List α) (k : Nat) :
    List.Perm (shuffleArray rnd a k).1 a :=
  shuffleLoop_perm rnd _ a k

theorem mem_shuffled_digits (rnd : Nat → Nat) (k d : Nat) :
    d ∈ (shuffleArray rnd ((List.range BOARD_SIZE).map (· + 1)) k).1 ↔ 1 ≤ d ∧ d ≤ 9 := by
  rw [(shuffleArray_perm rnd _ k).mem_iff]
  simp only [BOARD_SIZE, List.mem_map, List.mem_range]
  constructor
  · rintro ⟨a, ha, rfl⟩; omega
  · intro h; exact ⟨d - 1, by omega, by omega⟩

/-! ## Lemmas: the invariant of the backtracking search -/

theorem GenPost.mono {b : Board} {short short1 dead dead1 : Prop}
    {res : Except Fault (Bool × Board × Nat)} (h : GenPost b short dead res)
    (hs : short → short1) (hd : dead → dead1) : GenPost b short1 dead1 res := by
  rcases h with ⟨h1, h2⟩ | ⟨r, b1, k1, h1, h2, h3⟩
  · exact Or.inl ⟨h1, hs h2⟩
  · exact Or.inr ⟨r, b1, k1, h1, fun hr => ⟨(h2 hr).1, hd (h2 hr).2⟩, h3⟩

theorem target_empty {b : Board} {row col : Nat} (hrow : row < 9) (hcol : col < 9)
    (hf : FilledBefore b (9 * col + row)) : cell b row col = none := by
  by_contra h
  have := (hf row hrow col hcol).1 h
  omega

theorem absent_box {b : Board} {row col num : Nat} (h : Absent b row col num) {i j : Nat}
    (hi : i / 3 = row / 3) (hj : j / 3 = col / 3) : cell b i j ≠ some num := by
  have := h.2.2 (i - (row - row % 3)) (by omega) (j - (col - col % 3)) (by omega)
  have e1 : row - row % 3 + (i - (row - row % 3)) = i := by omega
  have e2 : col - col % 3 + (j - (col - col % 3)) = j := by omega
  rw [e1, e2] at this
  exact this

theorem absent_unit {b : Board} {row col num : Nat} (h : Absent b row col num) {i j : Nat}
    (hi : i < 9) (hj : j < 9)
    (hu : row = i ∨ col = j ∨ (row / 3 = i / 3 ∧ col / 3 = j / 3)) : cell b i j ≠ some num := by
  rcases hu with rfl | rfl | ⟨h1, h2⟩
  · exact h.1 j hj
  · exact h.2.1 i hi
  · exact absent_box h h1.symm h2.symm

theorem partial_put {b : Board} {row col num : Nat} (hrow : row < 9) (hcol : col < 9)
    (hp : Partial b (9 * col + row)) (hnum : 1 ≤ num ∧ num ≤ 9) (ha : Absent b row col num) :
    Partial (put b row col (some num)) (9 * col + row + 1) := by
  obtain ⟨hg, hf, hc, hd⟩ := hp
  refine ⟨grid9_put hg _ _ _, ?_, ?_, ?_⟩
  · intro i hi j hj
    rw [cell_put hg hrow hcol]
    split
    · rename_i h; rw [h.1, h.2]; simp
    · rename_i h
      rw [hf i hi j hj]
      have : ¬ (9 * j + i = 9 * col + row) := by
        intro he; exact h ⟨by omega, by omega⟩
      omega
  · intro i hi j hj i1 hi1 j1 hj1 ⟨hne, heq, hu⟩
    rw [cell_put hg hrow hcol] at hne heq
    rw [cell_put hg hrow hcol] at heq
    by_cases h1 : i = row ∧ j = col
    · by_cases h2 : i1 = row ∧ j1 = col
      · exact ⟨h1.1.trans h2.1.symm, h1.2.trans h2.2.symm⟩
      · rw [if_pos h1, if_neg h2] at heq
        obtain ⟨rfl, rfl⟩ := h1
        exact absurd heq.symm (absent_unit ha hi1 hj1 hu)
    · by_cases h2 : i1 = row ∧ j1 = col
      · rw [if_neg h1, if_pos h2] at heq
        obtain ⟨rfl, rfl⟩ := h2
        refine absurd heq (absent_unit ha hi hj ?_)
        rcases hu with h | h | h
        · exact Or.inl h.symm
        · exact Or.inr (Or.inl h.symm)
        · exact Or.inr (Or.inr ⟨h.1.symm, h.2.symm⟩)
      · rw [if_neg h1] at hne heq
        rw [if_neg h2] at heq
        exact hc i hi j hj i1 hi1 j1 hj1 ⟨hne, heq, hu⟩
  · intro i hi j hj
    rw [cell_put hg hrow hcol]
    split
    · exact Or.inr ⟨num, rfl, hnum⟩
    · exact hd i hi j hj

theorem extends_put {b : Board} {row col : Nat} (hg : Grid9 b) (hrow : row < 9) (hcol : col < 9)
    (he : cell b row col = none) (v : Cell) : Extends b (put b row col v) := by
  intro i hi j hj hne
  rw [cell_put hg hrow hcol]
  split
  · rename_i h; rw [h.1, h.2] at hne; exact absurd he hne
  · rfl

theorem Extends.trans {a b c : Board} (h1 : Extends a b) (h2 : Extends b c) : Extends a c := by
  intro i hi j hj hne
  have e1 := h1 i hi j hj hne
  have : cell b i j ≠ none := by rw [e1]; exact hne
  rw [h2 i hi j hj this, e1]

theorem absent_of_extends {b s : Board} {row col num : Nat} (hrow : row < 9) (hcol : col < 9)
    (he : cell b row col = none) (hs : Complete s) (hx : Extends b s)
    (hv : cell s row col = some num) : Absent b row col num := by
  have key : ∀ i < 9, ∀ j < 9,
      (row = i ∨ col = j ∨ (row / 3 = i / 3 ∧ col / 3 = j / 3)) → cell b i j ≠ some num := by
    intro i hi j hj hu hc
    have hne : cell b i j ≠ none := by rw [hc]; simp
    have hsv := hx i hi j hj hne
    rw [hc] at hsv
    have := hs.2.2.1 row hrow col hcol i hi j hj ⟨by rw [hv]; simp, by rw [hv, hsv], hu⟩
    obtain ⟨rfl, rfl⟩ := this
    rw [he] at hc
    exact absurd hc (by simp)
  refine ⟨fun j hj => key row hrow j hj (Or.inl rfl), fun i hi => key i hi col hcol (Or.inr (Or.inl rfl)), ?_⟩
  intro i hi j hj
  exact key _ (by omega) _ (by omega) (Or.inr (Or.inr ⟨by omega, by omega⟩))

theorem extends_put_of {b s : Board} {row col num : Nat} (hg : Grid9 b) (hrow : row < 9)
    (hcol : col < 9) (hx : Extends b s) (hv : cell s row col = some num) :
    Extends (put b row col (some num)) s := by
  intro i hi j hj hne
  rw [cell_put hg hrow hcol] at hne ⊢
  split
  · rename_i h; rw [h.1, h.2]; exact hv
  · rename_i h; rw [if_neg h] at hne; exact hx i hi j hj hne

/-- The candidate loop at an empty cell: a failed candidate leaves the board as it
was, and the loop fails only if no completion puts one of `nums` in the cell. -/
theorem tryNumbers_post (recur : Board → Nat → Except Fault (Bool × Board × Nat))
    (short : Prop) {row col : Nat} (hrow : row < 9) (hcol : col < 9)
    (hrec : ∀ b1 k, Partial b1 (9 * col + row + 1) →
      GenPost b1 short (¬ Solvable b1) (recur b1 k)) :
    ∀ (nums : List Nat), (∀ d ∈ nums, 1 ≤ d ∧ d ≤ 9) → ∀ (b : Board) (k : Nat),
      Partial b (9 * col + row) →
      GenPost b short (¬ ∃ s, Complete s ∧ Extends b s ∧ ∃ d ∈ nums, cell s row col = some d)
        (tryNumbers recur row col nums b k) := by
  intro nums
  induction nums with
  | nil =>
    intro _ b k _
    exact Or.inr ⟨false, b, k, rfl, fun _ => ⟨rfl, by simp⟩, fun h => by simp at h⟩
  | cons num rest ih =>
    intro hn b k hp
    have hrest : ∀ d ∈ rest, 1 ≤ d ∧ d ≤ 9 := fun d hd => hn d (List.mem_cons_of_mem _ hd)
    have hg := hp.1
    have he : cell b row col = none := target_empty hrow hcol hp.2.1
    unfold tryNumbers
    rw [isValidMove_of_grid9 hg hrow hcol]
    by_cases ha : Absent b row col num
    · rw [decide_eq_true ha]
      simp only
      rw [setCell_of_grid9 hg hrow hcol]
      simp only
      have hp1 := partial_put hrow hcol hp (hn num (List.mem_cons_self _ _)) ha
      rcases hrec (put b row col (some num)) k hp1 with ⟨h1, h2⟩ | ⟨r, b2, k2, h1, h2, h3⟩
      · rw [h1]
        exact Or.inl ⟨rfl, h2⟩
      · rw [h1]
        cases r with
        | true =>
          simp only
          obtain ⟨hc, hx⟩ := h3 rfl
          exact Or.inr ⟨true, b2, k2, rfl, fun h => by simp at h,
            fun _ => ⟨hc, (extends_put hg hrow hcol he _).trans hx⟩⟩
        | false =>
          simp only
          obtain ⟨rfl, hdead⟩ := h2 rfl
          rw [setCell_of_grid9 hp1.1 hrow hcol, EMPTY_CELL, put_put_none hg hrow hcol _ he]
          simp only
          refine (ih hrest b k2 hp).mono id ?_
          rintro hno ⟨s, hs, hx, d, hd, hv⟩
          rcases List.mem_cons.1 hd with rfl | hd
          · exact hdead ⟨s, hs, extends_put_of hg hrow hcol hx hv⟩
          · exact hno ⟨s, hs, hx, d, hd, hv⟩
    · rw [decide_eq_false ha]
      simp only
      refine (ih hrest b k hp).mono id ?_
      rintro hno ⟨s, hs, hx, d, hd, hv⟩
      rcases List.mem_cons.1 hd with rfl | hd
      · exact ha (absent_of_extends hrow hcol he hs hx hv)
      · exact hno ⟨s, hs, hx, d, hd, hv⟩

/-- The generator at position `(row, col)` of a board filled exactly before that
position: it runs out of fuel only with fewer units than cells left plus one;
otherwise it returns `false` with the board restored, only if the board has no
completion, or `true` with a completion of the board. -/
theorem generate_post (rnd : Nat → Nat) :
    ∀ (fuel : Nat) (b : Board) (row col k : Nat), row ≤ 9 → col < 9 →
      Partial b (9 * col + row) →
      GenPost b (fuel + (9 * col + row) ≤ 81) (¬ Solvable b)
        (generateRandomSolution rnd fuel b row col k) := by
  intro fuel
  induction fuel with
  | zero =>
    intro b row col k hrow hcol _
    exact Or.inl ⟨rfl, by omega⟩
  | succ fuel ih =>
    intro b row col k hrow hcol hp
    unfold generateRandomSolution
    simp only [BOARD_SIZE]
    by_cases hend : row = 9 ∧ (if row = 9 then col + 1 else col) = 9
    · rw [if_pos hend]
      obtain ⟨rfl, hc⟩ := hend
      simp only [if_true] at hc
      have h81 : 9 * col + 9 = 81 := by omega
      rw [h81] at hp
      have hfull : Complete b :=
        ⟨hp.1, fun i hi j hj => (hp.2.1 i hi j hj).2 (by omega), hp.2.2.1, hp.2.2.2⟩
      exact Or.inr ⟨true, b, k, rfl, fun h => by simp at h, fun _ => ⟨hfull, fun _ _ _ _ _ => rfl⟩⟩
    · rw [if_neg hend]
      have hrow1 : (if row = 9 then 0 else row) < 9 := by split <;> omega
      have hcol1 : (if row = 9 then col + 1 else col) < 9 := by
        by_cases h9 : row = 9
        · rw [if_pos h9]
          have : col + 1 ≠ 9 := fun h => hend ⟨h9, by rw [if_pos h9]; exact h⟩
          omega
        · rw [if_neg h9]; exact hcol
      have hpos : 9 * (if row = 9 then col + 1 else col) + (if row = 9 then 0 else row)
          = 9 * col + row := by split <;> omega
      have hp1 : Partial b (9 * (if row = 9 then col + 1 else col) + (if row = 9 then 0 else row)) := by
        rw [hpos]; exact hp
      have := tryNumbers_post
        (fun b1 k1 => generateRandomSolution rnd fuel b1 ((if row = 9 then 0 else row) + 1)
          (if row = 9 then col + 1 else col) k1)
        (fuel + 1 + (9 * col + row) ≤ 81) hrow1 hcol1
        (fun b1 k1 hb1 => (ih b1 _ _ k1 (by omega) hcol1 hb1).mono (by omega) id)
        (shuffleArray rnd ((List.range 9).map (· + 1)) k).1
        (fun d hd => (mem_shuffled_digits rnd k d).1 hd) b
        (shuffleArray rnd ((List.range 9).map (· + 1)) k).2 hp1
      refine this.mono id ?_
      rintro hno ⟨s, hs, hx⟩
      rcases hs.2.2.2 _ hrow1 _ hcol1 with h | ⟨d, hd, hd1⟩
      · exact hs.2.1 _ hrow1 _ hcol1 h
      · exact hno ⟨s, hs, hx, d, (mem_shuffled_digits rnd k d).2 hd1, hd⟩

/-! ## Lemmas: the empty board, and complete boards -/

theorem cell_emptyBoard (i j : Nat) : cell emptyBoard i j = none := by
  unfold cell emptyBoard
  by_cases hi : i < BOARD_SIZE
  · by_cases hj : j < BOARD_SIZE
    · simp [List.getD_eq_getElem?_getD, List.getElem?_replicate, hi, hj, EMPTY_CELL]
    · simp [List.getD_eq_getElem?_getD, List.getElem?_replicate, hi, hj]
  · simp [List.getD_eq_getElem?_getD, List.getElem?_replicate, hi]

theorem grid9_emptyBoard : Grid9 emptyBoard := by decide

theorem partial_emptyBoard : Partial emptyBoard 0 := by
  refine ⟨grid9_emptyBoard, ?_, ?_, ?_⟩
  · intro i _ j _
    simp [cell_emptyBoard]
  · intro i _ j _ i1 _ j1 _ h
    exact absurd (cell_emptyBoard i j) h.1
  · intro i _ j _
    exact Or.inl (cell_emptyBoard i j)

set_option maxRecDepth 100000 in
theorem complete_sampleSolution : Complete sampleSolution := by
  refine ⟨by decide, by decide, by decide, ?_⟩
  intro i hi j hj
  right
  interval_cases i <;> interval_cases j <;> exact ⟨_, rfl, by decide⟩

theorem solvable_emptyBoard : Solvable emptyBoard :=
  ⟨sampleSolution, complete_sampleSolution, fun i _ j _ h => absurd (cell_emptyBoard i j) h⟩

theorem unit_count (f : Nat → Cell) (hinj : ∀ t < 9, ∀ t1 < 9, f t = f t1 → t = t1)
    (hdig : ∀ t < 9, ∃ d, f t = some d ∧ 1 ≤ d ∧ d ≤ 9) (d : Nat) (h1 : 1 ≤ d) (h9 : d ≤ 9) :
    ((List.range 9).map f).count (some d) = 1 := by
  have hnd : ((List.range 9).map f).Nodup := by
    apply List.Nodup.map_on _ (List.nodup_range 9)
    intro x hx y hy h
    exact hinj x (List.mem_range.1 hx) y (List.mem_range.1 hy) h
  have hsub : (List.range 9).map f ⊆ (List.range 9).map fun t => some (t + 1) := by
    intro c hc
    obtain ⟨t, ht, rfl⟩ := List.mem_map.1 hc
    obtain ⟨e, he, he1, he9⟩ := hdig t (List.mem_range.1 ht)
    rw [he]
    exact List.mem_map.2 ⟨e - 1, List.mem_range.2 (by omega), by congr 1; omega⟩
  have hperm := (List.subperm_of_subset hnd hsub).perm_of_length_le (by simp)
  unfold List.count
  rw [hperm.countP_eq]
  interval_cases d <;> rfl

theorem validSolution_of_complete {b : Board} (h : Complete b) : ValidSolution b := by
  obtain ⟨hg, hf, hc, hd⟩ := h
  have hdig : ∀ i < 9, ∀ j < 9, ∃ d, cell b i j = some d ∧ 1 ≤ d ∧ d ≤ 9 := by
    intro i hi j hj
    rcases hd i hi j hj with h | h
    · exact absurd h (hf i hi j hj)
    · exact h
  refine ⟨hg, hdig, ?_⟩
  intro u hu d h1 h9
  refine ⟨?_, ?_, ?_⟩
  · apply unit_count _ _ (fun t ht => hdig u hu t ht) d h1 h9
    intro t ht t1 ht1 he
    exact (hc u hu t ht u hu t1 ht1 ⟨hf u hu t ht, he, Or.inl rfl⟩).2
  · apply unit_count _ _ (fun t ht => hdig t ht u hu) d h1 h9
    intro t ht t1 ht1 he
    exact (hc t ht u hu t1 ht1 u hu ⟨hf t ht u hu, he, Or.inr (Or.inl rfl)⟩).1
  · apply unit_count _ _ (fun t ht => hdig _ (by omega) _ (by omega)) d h1 h9
    intro t ht t1 ht1 he
    have := hc (3 * (u / 3) + t / 3) (by omega) (3 * (u % 3) + t % 3) (by omega)
      (3 * (u / 3) + t1 / 3) (by omega) (3 * (u % 3) + t1 % 3) (by omega)
      ⟨hf _ (by omega) _ (by omega), he, Or.inr (Or.inr ⟨by omega, by omega⟩)⟩
    omega

theorem generate_empty_cases (rnd : Nat → Nat) (fuel k : Nat) :
    (generateRandomSolution rnd fuel emptyBoard 0 0 k = .error .outOfFuel ∧ fuel ≤ 81) ∨
    ∃ b k1, generateRandomSolution rnd fuel emptyBoard 0 0 k = .ok (true, b, k1) ∧ Complete b := by
  rcases generate_post rnd fuel emptyBoard 0 0 k (by omega) (by omega) partial_emptyBoard with
    ⟨h1, h2⟩ | ⟨r, b, k1, h1, h2, h3⟩
  · exact Or.inl ⟨h1, by omega⟩
  · cases r with
    | false => exact absurd solvable_emptyBoard (h2 rfl).2
    | true => exact Or.inr ⟨b, k1, h1, (h3 rfl).1⟩

/-! ## Solution generator -/

/-- C1: whenever `generateRandomSolution(board, 0, 0)` on the all-empty board
returns `true`, whatever the random draws, the board it leaves has no empty
cell, holds a digit of 1..9 in every cell, and has each digit 1..9 exactly once
in every row, every column and every aligned 3x3 box; and this board is the
second component of the pair returned by `generateRandomSudoku`. -/
theorem generateRandomSolution_valid (rnd : Nat → Nat) (fuel k : Nat) (b : Board) (k1 : Nat)
    (h : generateRandomSolution rnd fuel emptyBoard 0 0 k = .ok (true, b, k1)) :
    Full b ∧ ValidSolution b ∧
    ∀ difficulty puzzle solution k2,
      generateRandomSudoku rnd fuel difficulty k = .ok ((puzzle, solution), k2) →
      solution = b := by
  have hc : Complete b := by
    rcases generate_empty_cases rnd fuel k with ⟨h1, -⟩ | ⟨b1, k2, h1, h2⟩
    · rw [h] at h1; cases h1
    · rw [h] at h1; cases h1; exact h2
  refine ⟨hc.2.1, validSolution_of_complete hc, ?_⟩
  intro difficulty puzzle solution k2 hs
  unfold generateRandomSudoku at hs
  rw [h] at hs
  simp only at hs
  split at hs
  · cases hs
  · cases hs; rfl

set_option maxRecDepth 1000000 in
/-- Witness of C1: under `sampleChoices` the generator returns `true` and
leaves `sampleSolution`, which is a valid solution. -/
theorem generateRandomSolution_valid_witness :
    generateRandomSolution sampleChoices 82 emptyBoard 0 0 0 = .ok (true, sampleSolution, 648) ∧
    Full sampleSolution ∧ ValidSolution sampleSolution :=
  ⟨rfl, (generateRandomSolution_valid sampleChoices 82 0 sampleSolution 648 rfl).1,
    (generateRandomSolution_valid sampleChoices 82 0 sampleSolution 648 rfl).2.1⟩

/-- C2: for every stream of random draws, `generateRandomSolution(board, 0, 0)`
on the all-empty board ends (82 nested calls suffice) and returns `true`, leaving
a board without empty cell, which is what `generateRandomSudoku` passes on. -/
theorem generateRandomSolution_succeeds (rnd : Nat → Nat) (fuel k : Nat) (hfuel : 82 ≤ fuel) :
    ∃ b k1, generateRandomSolution rnd fuel emptyBoard 0 0 k = .ok (true, b, k1) ∧ Full b := by
  rcases generate_empty_cases rnd fuel k with ⟨-, h2⟩ | ⟨b, k1, h1, h2⟩
  · omega
  · exact ⟨b, k1, h1, h2.2.1⟩

/-- Witness of C2 at the constant stream of draws and 82 units of fuel. -/
theorem generateRandomSolution_succeeds_witness :
    82 ≤ 82 ∧ ∃ b k1, generateRandomSolution (fun _ => 0) 82 emptyBoard 0 0 0 = .ok (true, b, k1) ∧
      Full b :=
  ⟨by decide, generateRandomSolution_succeeds (fun _ => 0) 82 0 (by decide)⟩

/-! ## Lemmas: counting filled cells -/

theorem sum_set_add (l : List Nat) (i : Nat) (h : i < l.length) (x : Nat) :
    (l.set i x).sum + l[i] = l.sum + x := by
  induction l generalizing i with
  | nil => simp at h
  | cons a as ih =>
    cases i with
    | zero => simp; omega
    | succ i =>
      simp only [List.length_cons, Nat.add_lt_add_iff_right] at h
      have := ih i h
      simp only [List.set_cons_succ, List.sum_cons, List.getElem_cons_succ]
      omega

theorem countFilled_put_none {b : Board} (hb : Grid9 b) {i j : Nat} (hi : i < 9) (hj : j < 9)
    (hne : cell b i j ≠ none) : countFilled (put b i j none) + 1 = countFilled b := by
  have hlt : i < b.length := by rw [hb.1]; exact hi
  have hlen := grid9_row_length hb hi
  rw [List.getD_eq_getElem _ _ hlt] at hlen
  have hj2 : j < (b[i]).length := by rw [hlen]; exact hj
  have hcell : cell b i j = (b[i])[j] := by
    unfold cell
    rw [List.getD_eq_getElem _ _ hlt, List.getD_eq_getElem _ _ hj2]
  rw [hcell] at hne
  unfold countFilled put
  rw [List.getD_eq_getElem _ _ hlt, List.map_set]
  have hs := sum_set_add (b.map fun r => r.countP Option.isSome) i (by simpa using hlt)
    (((b[i]).set j none).countP Option.isSome)
  rw [List.getElem_map] at hs
  have hc := List.countP_set Option.isSome (b[i]) j none hj2
  have hpos : 0 < (b[i]).countP Option.isSome :=
    List.countP_pos_iff.2 ⟨_, List.getElem_mem hj2, by simpa [Option.isSome_iff_ne_none] using hne⟩
  have hp : ((b[i])[j]).isSome = true := by simpa [Option.isSome_iff_ne_none] using hne
  simp only [hp, if_true, Option.isSome_none, Bool.false_eq_true, if_false] at hc
  omega

theorem countFilled_full {b : Board} (hb : Grid9 b) (hf : Full b) : countFilled b = 81 := by
  unfold countFilled
  have hrow : ∀ r ∈ b, r.countP Option.isSome = 9 := by
    intro r hr
    obtain ⟨i, hi, rfl⟩ := List.mem_iff_getElem.1 hr
    have hi9 : i < 9 := by rw [← hb.1]; exact hi
    have hlen := hb.2 _ hr
    rw [← hlen, List.countP_eq_length]
    intro c hc
    obtain ⟨j, hj, rfl⟩ := List.mem_iff_getElem.1 hc
    have := hf i hi9 j (by rw [← hlen]; exact hj)
    unfold cell at this
    rw [List.getD_eq_getElem _ _ hi, List.getD_eq_getElem _ _ hj] at this
    simpa [Option.isSome_iff_ne_none] using this
  rw [List.map_congr_left hrow]
  simp [hb.1]

/-- The removal loop, when it exits: the counter equals the number of filled
cells throughout, and cells are only ever cleared. -/
theorem removeLoop_post (rnd : Nat → Nat) (toKeep : Nat) :
    ∀ (fuel : Nat) (b : Board) (n k : Nat) (b1 : Board) (k1 : Nat), Grid9 b →
      countFilled b = n → toKeep ≤ n → removeLoop rnd toKeep fuel b n k = .ok (b1, k1) →
      Grid9 b1 ∧ countFilled b1 = toKeep ∧
        ∀ i < 9, ∀ j < 9, cell b1 i j = none ∨ cell b1 i j = cell b i j := by
  intro fuel
  induction fuel with
  | zero => intro b n k b1 k1 _ _ _ h; cases h
  | succ fuel ih =>
    intro b n k b1 k1 hg hn hk h
    unfold removeLoop at h
    by_cases hgt : n > toKeep
    · rw [if_pos hgt] at h
      have hr : rnd k % BOARD_SIZE < 9 := Nat.mod_lt _ (by decide)
      have hc : rnd (k + 1) % BOARD_SIZE < 9 := Nat.mod_lt _ (by decide)
      simp only [cellAt_of_grid9 hg hr hc] at h
      by_cases hne : cell b (rnd k % BOARD_SIZE) (rnd (k + 1) % BOARD_SIZE) ≠ EMPTY_CELL
      · rw [if_pos hne, setCell_of_grid9 hg hr hc] at h
        simp only [EMPTY_CELL] at h hne
        have hcnt := countFilled_put_none hg hr hc hne
        obtain ⟨h1, h2, h3⟩ := ih _ (n - 1) _ b1 k1 (grid9_put hg _ _ _) (by omega) (by omega) h
        refine ⟨h1, h2, fun i hi j hj => ?_⟩
        rcases h3 i hi j hj with h4 | h4
        · exact Or.inl h4
        · rw [cell_put hg hr hc] at h4
          split at h4
          · exact Or.inl h4
          · exact Or.inr h4
      · rw [if_neg hne] at h
        exact ih b n _ b1 k1 hg hn hk h
    · rw [if_neg hgt] at h
      cases h
      exact ⟨hg, by omega, fun i _ j _ => Or.inr rfl⟩

/-! ## Puzzle mask -/

/-- C3: on a fully filled 9x9 board, for every difficulty value and every
stream of random picks on which the loop of `removeNumbers` exits, exactly
`clueCount` cells are left non-empty, that is `81 - clueCount` cells were
cleared, where `clueCount` is 55 for `'easy'`, 40 for `'medium'`, 25 for `'hard'`
and 55 for every other value. -/
theorem removeNumbers_clueCount (rnd : Nat → Nat) (fuel : Nat) (board : Board)
    (difficulty : String) (k : Nat) (b1 : Board) (k1 : Nat) (hg : Grid9 board)
    (hfull : Full board) (h : removeNumbers rnd fuel board difficulty k = .ok (b1, k1)) :
    countFilled b1 =
      (if difficulty = "easy" then 55 else if difficulty = "medium" then 40
        else if difficulty = "hard" then 25 else 55) ∧
    countFilled board - countFilled b1 =
      81 - (if difficulty = "easy" then 55 else if difficulty = "medium" then 40
        else if difficulty = "hard" then 25 else 55) := by
  unfold removeNumbers at h
  have h81 := countFilled_full hg hfull
  have hk : cellsToKeep difficulty ≤ 81 := by unfold cellsToKeep; split_ifs <;> omega
  simp only [BOARD_SIZE] at h
  obtain ⟨-, h2, -⟩ := removeLoop_post rnd _ fuel board _ k b1 k1 hg h81 hk h
  exact ⟨by rw [h2]; rfl, by rw [h81, h2]; rfl⟩

set_option maxRecDepth 1000000 in
/-- Witness of C3: clearing `sampleSolution` at difficulty `'hard'` along
`sampleWalk` leaves the 25 clues of `sampleHardPuzzle`. -/
theorem removeNumbers_clueCount_witness :
    removeNumbers sampleWalk 57 sampleSolution "hard" 0 = .ok (sampleHardPuzzle, 112) ∧
    countFilled sampleHardPuzzle = 25 ∧ countFilled sampleSolution - countFilled sampleHardPuzzle = 56 :=
  ⟨rfl, (removeNumbers_clueCount sampleWalk 57 sampleSolution "hard" 0 sampleHardPuzzle 112
    (by decide) (by decide) rfl).1, rfl⟩


theorem map_copy (b : Board) : (b.map fun row => row.map id) = b := by
  simp

theorem generateRandomSudoku_inv (rnd : Nat → Nat) (fuel : Nat) (difficulty : String) (k : Nat)
    (puzzle solution : Board) (k2 : Nat)
    (h : generateRandomSudoku rnd fuel difficulty k = .ok ((puzzle, solution), k2)) :
    Complete solution ∧ Grid9 puzzle ∧ countFilled puzzle = cellsToKeep difficulty ∧
      ∀ i < 9, ∀ j < 9, cell puzzle i j = none ∨ cell puzzle i j = cell solution i j := by
  unfold generateRandomSudoku at h
  rcases generate_empty_cases rnd fuel k with ⟨h1, -⟩ | ⟨b, k1, h1, hc⟩
  · rw [h1] at h; cases h
  · rw [h1] at h
    simp only [map_copy] at h
    split at h
    · cases h
    · rename_i p k3 hrem
      cases h
      unfold removeNumbers at hrem
      have h81 := countFilled_full hc.1 hc.2.1
      have hk : cellsToKeep difficulty ≤ 81 := by unfold cellsToKeep; split_ifs <;> omega
      simp only [BOARD_SIZE] at hrem
      obtain ⟨g1, g2, g3⟩ := removeLoop_post rnd _ fuel solution _ k1 puzzle k2 hc.1 h81 hk hrem
      exact ⟨hc, g1, g2, g3⟩

/-- C4: in every pair returned by `generateRandomSudoku`, for every difficulty
and every stream of random draws, each cell of the puzzle is empty or equal to
the cell of the solution at the same position, and the solution has no empty
cell. -/
theorem generateRandomSudoku_puzzle_of_solution (rnd : Nat → Nat) (fuel : Nat)
    (difficulty : String) (k : Nat) (puzzle solution : Board) (k2 : Nat)
    (h : generateRandomSudoku rnd fuel difficulty k = .ok ((puzzle, solution), k2)) :
    (∀ i < 9, ∀ j < 9, cell puzzle i j = none ∨ cell puzzle i j = cell solution i j) ∧
    Full solution ∧ Grid9 puzzle ∧ Grid9 solution := by
  obtain ⟨hc, g1, -, g3⟩ := generateRandomSudoku_inv rnd fuel difficulty k puzzle solution k2 h
  exact ⟨g3, hc.2.1, g1, hc.1⟩

set_option maxRecDepth 1000000 in
/-- Witness of C4: the pair produced at difficulty `'hard'` under `sampleStream`. -/
theorem generateRandomSudoku_puzzle_of_solution_witness :
    generateRandomSudoku sampleStream 82 "hard" 0 =
      .ok ((sampleHardPuzzle, sampleSolution), 760) ∧
    (∀ i < 9, ∀ j < 9, cell sampleHardPuzzle i j = none ∨
      cell sampleHardPuzzle i j = cell sampleSolution i j) ∧ Full sampleSolution :=
  ⟨rfl, (generateRandomSudoku_puzzle_of_solution sampleStream 82 "hard" 0 sampleHardPuzzle
      sampleSolution 760 rfl).1,
    (generateRandomSudoku_puzzle_of_solution sampleStream 82 "hard" 0 sampleHardPuzzle
      sampleSolution 760 rfl).2.1⟩

theorem isSudokuCorrect_of_grid9 {p s : Board} (hp : Grid9 p) (hs : Grid9 s) :
    isSudokuCorrect p s = .ok (decide (SameCells p s)) := by
  unfold isSudokuCorrect
  rw [allM_ok _ (fun i => (List.range BOARD_SIZE).all fun j => cell p i j == cell s i j)]
  · congr 1
    rw [Bool.eq_iff_iff]
    simp only [List.all_eq_true, List.mem_range, beq_iff_eq, decide_eq_true_eq, BOARD_SIZE,
      SameCells]
  · intro i hi
    rw [List.mem_range] at hi
    apply allM_ok
    intro j hj
    rw [List.mem_range] at hj
    rw [cellAt_of_grid9 hp hi hj, cellAt_of_grid9 hs hi hj]

/-! ## Solution checker -/

/-- C5 (as amended): for every pair of 9x9 grids, `isSudokuCorrect` returns
`true` if and only if the puzzle equals the solution at all 81 positions; it
returns `true` on a puzzle identical to the solution, and `false` as soon as one
cell differs from the solution's cell, which covers an empty cell where the
solution holds a digit and a digit different from the solution's. -/
theorem isSudokuCorrect_iff (puzzle solution : Board) (hp : Grid9 puzzle)
    (hs : Grid9 solution) :
    (isSudokuCorrect puzzle solution = .ok true ∨ isSudokuCorrect puzzle solution = .ok false) ∧
    (isSudokuCorrect puzzle solution = .ok true ↔
      ∀ i < 9, ∀ j < 9, cell puzzle i j = cell solution i j) ∧
    isSudokuCorrect solution solution = .ok true ∧
    (∀ i < 9, ∀ j < 9, cell puzzle i j ≠ cell solution i j →
      isSudokuCorrect puzzle solution = .ok false) ∧
    (∀ i < 9, ∀ j < 9, cell puzzle i j = none → cell solution i j ≠ none →
      isSudokuCorrect puzzle solution = .ok false) := by
  rw [isSudokuCorrect_of_grid9 hp hs, isSudokuCorrect_of_grid9 hs hs]
  have hdiff : ∀ i < 9, ∀ j < 9, cell puzzle i j ≠ cell solution i j →
      Except.ok (decide (SameCells puzzle solution)) = (Except.ok false : Except Fault Bool) := by
    intro i hi j hj hne
    rw [decide_eq_false]
    exact fun h => hne (h i hi j hj)
  refine ⟨?_, ?_, ?_, hdiff, ?_⟩
  · by_cases h : SameCells puzzle solution
    · exact Or.inl (by rw [decide_eq_true h])
    · exact Or.inr (by rw [decide_eq_false h])
  · constructor
    · intro h
      have : decide (SameCells puzzle solution) = true := by injection h
      exact of_decide_eq_true this
    · intro h
      rw [decide_eq_true (show SameCells puzzle solution from h)]
  · rw [decide_eq_true (show SameCells solution solution from fun _ _ _ _ => rfl)]
  · intro i hi j hj he hne
    exact hdiff i hi j hj (by rw [he]; exact fun h => hne h.symm)

/-- Witness of C5 on the pair `sampleHardPuzzle`, `sampleSolution`. -/
theorem isSudokuCorrect_iff_witness :
    Grid9 sampleHardPuzzle ∧ Grid9 sampleSolution ∧
    isSudokuCorrect sampleSolution sampleSolution = .ok true ∧
    (isSudokuCorrect sampleHardPuzzle sampleSolution = .ok true ↔
      ∀ i < 9, ∀ j < 9, cell sampleHardPuzzle i j = cell sampleSolution i j) :=
  ⟨by decide, by decide,
    (isSudokuCorrect_iff sampleHardPuzzle sampleSolution (by decide) (by decide)).2.2.1,
    (isSudokuCorrect_iff sampleHardPuzzle sampleSolution (by decide) (by decide)).2.1⟩

/-- Counterexample to C5 as stated: on two all-empty 9x9 grids every cell of
the puzzle is empty, yet `isSudokuCorrect` returns `true`. -/
theorem isSudokuCorrect_empty_true :
    Grid9 emptyBoard ∧ cell emptyBoard 0 0 = none ∧
    isSudokuCorrect emptyBoard emptyBoard = .ok true :=
  ⟨by decide, rfl, rfl⟩

/-! ## Validator -/

/-- C7: on a 9x9 grid, at a position in range whose cell is empty and for a
digit `num` of 1..9, `isValidMove` returns a boolean, and it returns `true` if and
only if `num` occurs in none of the 9 cells of the row, none of the 9 cells of
the column and none of the 9 cells of the box whose top-left corner is
`(row - row % 3, col - col % 3)`. -/
theorem isValidMove_iff (board : Board) (row col num : Nat) (hg : Grid9 board) (hrow : row < 9)
    (hcol : col < 9) (_hempty : cell board row col = none) (_hnum : 1 ≤ num ∧ num ≤ 9) :
    (isValidMove board row col num = .ok true ∨ isValidMove board row col num = .ok false) ∧
    (isValidMove board row col num = .ok true ↔
      (∀ j < 9, cell board row j ≠ some num) ∧ (∀ i < 9, cell board i col ≠ some num) ∧
      ∀ i < 3, ∀ j < 3, cell board (row - row % 3 + i) (col - col % 3 + j) ≠ some num) := by
  rw [isValidMove_of_grid9 hg hrow hcol]
  constructor
  · by_cases h : Absent board row col num
    · exact Or.inl (by rw [decide_eq_true h])
    · exact Or.inr (by rw [decide_eq_false h])
  · constructor
    · intro h
      have : decide (Absent board row col num) = true := by injection h
      exact of_decide_eq_true this
    · intro h
      rw [decide_eq_true (show Absent board row col num from h)]

/-- Witness of C7: digit 5 at the empty position (0, 1) of `loneFive`. -/
theorem isValidMove_iff_witness :
    Grid9 loneFive ∧ cell loneFive 0 1 = none ∧ isValidMove loneFive 0 1 5 = .ok false ∧
    (isValidMove loneFive 0 1 5 = .ok true ↔
      (∀ j < 9, cell loneFive 0 j ≠ some 5) ∧ (∀ i < 9, cell loneFive i 1 ≠ some 5) ∧
      ∀ i < 3, ∀ j < 3, cell loneFive (0 - 0 % 3 + i) (1 - 1 % 3 + j) ≠ some 5) :=
  ⟨by decide, by decide, rfl,
    (isValidMove_iff loneFive 0 1 5 (by decide) (by decide) (by decide) (by decide)
      (by decide)).2⟩

/-- C8 (as amended): on a 9x9 grid, at a position in range whose cell is empty,
if the digit occurs in no other cell of the row, of the column and of the box,
then `isValidMove` returns `true`. -/
theorem isValidMove_of_no_other (grid : Board) (row col value : Nat) (hg : Grid9 grid)
    (hrow : row < 9) (hcol : col < 9) (hempty : cell grid row col = none)
    (hr : ∀ j < 9, j ≠ col → cell grid row j ≠ some value)
    (hc : ∀ i < 9, i ≠ row → cell grid i col ≠ some value)
    (hb : ∀ i < 3, ∀ j < 3, ¬ (row - row % 3 + i = row ∧ col - col % 3 + j = col) →
      cell grid (row - row % 3 + i) (col - col % 3 + j) ≠ some value) :
    isValidMove grid row col value = .ok true := by
  rw [isValidMove_of_grid9 hg hrow hcol, decide_eq_true]
  have hself : cell grid row col ≠ some value := by rw [hempty]; simp
  refine ⟨fun j hj => ?_, fun i hi => ?_, fun i hi j hj => ?_⟩
  · by_cases h : j = col
    · rw [h]; exact hself
    · exact hr j hj h
  · by_cases h : i = row
    · rw [h]; exact hself
    · exact hc i hi h
  · by_cases h : row - row % 3 + i = row ∧ col - col % 3 + j = col
    · rw [h.1, h.2]; exact hself
    · exact hb i hi j hj h

/-- Witness of C8: digit 5 at the empty position (4, 4) of `loneFive`. -/
theorem isValidMove_of_no_other_witness :
    Grid9 loneFive ∧ cell loneFive 4 4 = none ∧ isValidMove loneFive 4 4 5 = .ok true :=
  ⟨by decide, by decide,
    isValidMove_of_no_other loneFive 4 4 5 (by decide) (by decide) (by decide) (by decide)
      (by decide) (by decide) (by decide)⟩

/-- Counterexample to C8 as stated: the cell (0, 0) of `loneFive` holds 5 and no
other cell of the grid holds 5, yet `isValidMove(grid, 0, 0, 5)` returns `false`. -/
theorem isValidMove_self_collision :
    Grid9 loneFive ∧ cell loneFive 0 0 = some 5 ∧
    (∀ i < 9, ∀ j < 9, ¬ (i = 0 ∧ j = 0) → cell loneFive i j ≠ some 5) ∧
    isValidMove loneFive 0 0 5 = .ok false :=
  ⟨by decide, by decide, by decide, rfl⟩

/-! ## Lemmas: `handleCellInput` and `displaySudoku` -/

theorem handleCellInput_invalid (parseInt : String → Option Int) (board : Board) (row col : Nat)
    (input : InputCell)
    (h : parseInt input.value = none ∨ ∃ v, parseInt input.value = some v ∧ ¬ (1 ≤ v ∧ v ≤ 9)) :
    handleCellInput parseInt board row col input = .ok (board, { input with value := "" }) := by
  unfold handleCellInput
  rcases h with h | ⟨v, h, hv⟩
  · rw [h]
  · rw [h]
    simp only [ge_iff_le]
    rw [if_neg hv]

theorem handleCellInput_valid (parseInt : String → Option Int) {board : Board} {row col : Nat}
    (hg : Grid9 board) (hrow : row < 9) (hcol : col < 9) (input : InputCell) (v : Int)
    (h : parseInt input.value = some v) (h1 : 1 ≤ v) (h9 : v ≤ 9) :
    handleCellInput parseInt board row col input =
      .ok (put board row col (some v.toNat), input) := by
  unfold handleCellInput
  rw [h]
  simp only [ge_iff_le]
  rw [if_pos ⟨h1, h9⟩, setCell_of_grid9 hg hrow hcol]

theorem displaySudoku_of_grid9 {b : Board} (hb : Grid9 b) :
    displaySudoku b =
      .ok ((List.range 9).map fun i => (List.range 9).map fun j => inputFor (cell b i j)) := by
  unfold displaySudoku
  simp only [BOARD_SIZE]
  apply mapM_ok
  intro i hi
  rw [List.mem_range] at hi
  apply mapM_ok
  intro j hj
  rw [List.mem_range] at hj
  rw [cellAt_of_grid9 hb hi hj]

/-! ## Cell input -/

/-- C9 (failing input): the player types 5 into the empty cell (0, 0) of
`sampleHardPuzzle`, then replaces the text by `abc` (read as `NaN`) and then by
`0`: each time `handleCellInput` empties the input element, but the stored cell
still holds 5. -/
theorem handleCellInput_invalid_keeps_stored :
    cell sampleHardPuzzle 0 0 = none ∧
    handleCellInput sampleParseInt sampleHardPuzzle 0 0 ⟨"5", false⟩ =
      .ok (put sampleHardPuzzle 0 0 (some 5), ⟨"5", false⟩) ∧
    sampleParseInt "abc" = none ∧
    handleCellInput sampleParseInt (put sampleHardPuzzle 0 0 (some 5)) 0 0 ⟨"abc", false⟩ =
      .ok (put sampleHardPuzzle 0 0 (some 5), ⟨"", false⟩) ∧
    sampleParseInt "0" = some 0 ∧
    handleCellInput sampleParseInt (put sampleHardPuzzle 0 0 (some 5)) 0 0 ⟨"0", false⟩ =
      .ok (put sampleHardPuzzle 0 0 (some 5), ⟨"", false⟩) ∧
    cell (put sampleHardPuzzle 0 0 (some 5)) 0 0 = some 5 :=
  ⟨rfl, rfl, rfl, rfl, rfl, rfl, rfl⟩

/-- C10 (as amended): at a fixed (non-empty) cell of a 9x9 puzzle,
`displaySudoku` creates a read-only input element; `handleCellInput` itself
leaves the stored board unchanged when the parsed input is not an integer of
1..9, and stores `v` in the cell when the parsed input is an integer `v` of 1..9. -/
theorem handleCellInput_fixed (parseInt : String → Option Int) (puzzle : Board) (row col : Nat)
    (input : InputCell) (hg : Grid9 puzzle) (hrow : row < 9) (hcol : col < 9)
    (hfixed : cell puzzle row col ≠ none) :
    (∃ views, displaySudoku puzzle = .ok views ∧
      ((views.getD row []).getD col ⟨"", false⟩).readOnly = true) ∧
    ((parseInt input.value = none ∨ ∃ v, parseInt input.value = some v ∧ ¬ (1 ≤ v ∧ v ≤ 9)) →
      ∃ shown, handleCellInput parseInt puzzle row col input = .ok (puzzle, shown)) ∧
    (∀ v, parseInt input.value = some v → 1 ≤ v → v ≤ 9 →
      ∃ b1, handleCellInput parseInt puzzle row col input = .ok (b1, input) ∧
        cell b1 row col = some v.toNat) := by
  refine ⟨⟨_, displaySudoku_of_grid9 hg, ?_⟩, ?_, ?_⟩
  · simp [List.getD_eq_getElem?_getD, hrow, hcol, inputFor, EMPTY_CELL, hfixed]
  · intro h
    exact ⟨_, handleCellInput_invalid parseInt puzzle row col input h⟩
  · intro v hv h1 h9
    refine ⟨_, handleCellInput_valid parseInt hg hrow hcol input v hv h1 h9, ?_⟩
    rw [cell_put hg hrow hcol, if_pos ⟨rfl, rfl⟩]

/-- Witness of C10 (as amended) at the fixed cell (8, 0) of `sampleHardPuzzle`. -/
theorem handleCellInput_fixed_witness :
    Grid9 sampleHardPuzzle ∧ cell sampleHardPuzzle 8 0 ≠ none ∧
    ∃ shown, handleCellInput sampleParseInt sampleHardPuzzle 8 0 ⟨"x", true⟩ =
      .ok (sampleHardPuzzle, shown) :=
  ⟨by decide, by decide,
    (handleCellInput_fixed sampleParseInt sampleHardPuzzle 8 0 ⟨"x", true⟩ (by decide)
      (by decide) (by decide) (by decide)).2.1 (Or.inl rfl)⟩

set_option maxRecDepth 1000000 in
/-- Counterexample to C10 as stated: `sampleHardPuzzle` is a generated puzzle
whose cell (8, 0) is the fixed clue 9; `handleCellInput(8, 0, ...)` on the input
text `5` stores 5 there. -/
theorem handleCellInput_overwrites_fixed :
    generateRandomSudoku sampleStream 82 "hard" 0 =
      .ok ((sampleHardPuzzle, sampleSolution), 760) ∧
    cell sampleHardPuzzle 8 0 = some 9 ∧
    handleCellInput sampleParseInt sampleHardPuzzle 8 0 ⟨"5", true⟩ =
      .ok (put sampleHardPuzzle 8 0 (some 5), ⟨"5", true⟩) ∧
    cell (put sampleHardPuzzle 8 0 (some 5)) 8 0 = some 5 :=
  ⟨rfl, rfl, rfl, rfl⟩

theorem fillFromSolution_post (parseInt : String → Option Int)
    (hparse : ∀ d : Nat, 1 ≤ d → d ≤ 9 → parseInt (toString d) = some (d : Int))
    {s : Board} (hs : Complete s) :
    ∀ (cells : List (Nat × Nat)) (b : Board), Grid9 b →
      (∀ i < 9, ∀ j < 9, cell b i j = none ∨ cell b i j = cell s i j) →
      (∀ q ∈ cells, q.1 < 9 ∧ q.2 < 9) →
      ∃ b1, fillFromSolution parseInt s cells b = .ok b1 ∧ Grid9 b1 ∧
        (∀ i < 9, ∀ j < 9, cell b1 i j = none ∨ cell b1 i j = cell s i j) ∧
        (∀ i < 9, ∀ j < 9, cell b i j ≠ none ∨ (i, j) ∈ cells → cell b1 i j = cell s i j) := by
  intro cells
  induction cells with
  | nil =>
    intro b hg hb _
    refine ⟨b, rfl, hg, hb, ?_⟩
    intro i hi j hj h
    rcases h with h | h
    · rcases hb i hi j hj with h1 | h1
      · exact absurd h1 h
      · exact h1
    · simp at h
  | cons q rest ih =>
    intro b hg hb hq
    obtain ⟨qi, qj⟩ := q
    have hqi : qi < 9 := (hq _ (List.mem_cons_self _ _)).1
    have hqj : qj < 9 := (hq _ (List.mem_cons_self _ _)).2
    have hrest : ∀ q ∈ rest, q.1 < 9 ∧ q.2 < 9 := fun q h => hq q (List.mem_cons_of_mem _ h)
    unfold fillFromSolution
    rw [cellAt_of_grid9 hg hqi hqj, cellAt_of_grid9 hs.1 hqi hqj]
    cases hc : cell b qi qj with
    | some x =>
      simp only
      obtain ⟨b1, h1, h2, h3, h4⟩ := ih b hg hb hrest
      refine ⟨b1, h1, h2, h3, ?_⟩
      intro i hi j hj h
      rcases h with h | h
      · exact h4 i hi j hj (Or.inl h)
      · rcases List.mem_cons.1 h with h | h
        · cases h
          exact h4 _ hi _ hj (Or.inl (by rw [hc]; simp))
        · exact h4 i hi j hj (Or.inr h)
    | none =>
      simp only
      rcases hs.2.2.2 qi hqi qj hqj with hn | ⟨d, hd, hd1, hd9⟩
      · exact absurd hn (hs.2.1 qi hqi qj hqj)
      · rw [hd]
        simp only
        rw [handleCellInput_valid parseInt hg hqi hqj _ (d : Int) (hparse d hd1 hd9)
          (by omega) (by omega)]
        simp only [Int.toNat_ofNat]
        have hg1 := grid9_put hg qi qj (some d)
        have hb1 : ∀ i < 9, ∀ j < 9, cell (put b qi qj (some d)) i j = none ∨
            cell (put b qi qj (some d)) i j = cell s i j := by
          intro i hi j hj
          rw [cell_put hg hqi hqj]
          split
          · rename_i h; rw [h.1, h.2, hd]; exact Or.inr rfl
          · exact hb i hi j hj
        obtain ⟨b1, h1, h2, h3, h4⟩ := ih _ hg1 hb1 hrest
        refine ⟨b1, h1, h2, h3, ?_⟩
        intro i hi j hj h
        apply h4 i hi j hj
        rw [cell_put hg hqi hqj]
        by_cases hij : i = qi ∧ j = qj
        · rw [if_pos hij]; exact Or.inl (by simp)
        · rw [if_neg hij]
          rcases h with h | h
          · exact Or.inl h
          · rcases List.mem_cons.1 h with h | h
            · cases h; exact absurd ⟨rfl, rfl⟩ hij
            · exact Or.inr h

theorem mem_allPositions {i j : Nat} (hi : i < 9) (hj : j < 9) : (i, j) ∈ allPositions := by
  unfold allPositions
  simp only [BOARD_SIZE, List.mem_flatMap, List.mem_range, List.mem_map]
  exact ⟨i, hi, j, hj, rfl⟩

theorem allPositions_lt : ∀ q ∈ allPositions, q.1 < 9 ∧ q.2 < 9 := by
  intro q hq
  unfold allPositions at hq
  simp only [BOARD_SIZE, List.mem_flatMap, List.mem_range, List.mem_map] at hq
  obtain ⟨i, hi, j, hj, rfl⟩ := hq
  exact ⟨hi, hj⟩

/-! ## Scenario at difficulty `'hard'` -/

/-- C6: for every pair produced by `generateRandomSudoku` at difficulty
`'hard'`, whatever the random draws: the puzzle has exactly 25 non-empty cells,
each equal to the solution at its position; `isSudokuCorrect` on the puzzle as
returned is `false`; and once the solution's digit has been entered with
`handleCellInput` into every empty cell, `isSudokuCorrect` is `true`.  The
built-in `parseInt` is assumed to read the decimal text of a digit as that digit. -/
theorem generateRandomSudoku_hard_scenario (rnd : Nat → Nat) (fuel k : Nat)
    (puzzle solution : Board) (k2 : Nat) (parseInt : String → Option Int)
    (hparse : ∀ d : Nat, 1 ≤ d → d ≤ 9 → parseInt (toString d) = some (d : Int))
    (h : generateRandomSudoku rnd fuel "hard" k = .ok ((puzzle, solution), k2)) :
    countFilled puzzle = 25 ∧
    (∀ i < 9, ∀ j < 9, cell puzzle i j ≠ none → cell puzzle i j = cell solution i j) ∧
    isSudokuCorrect puzzle solution = .ok false ∧
    ∃ filled, fillFromSolution parseInt solution allPositions puzzle = .ok filled ∧
      isSudokuCorrect filled solution = .ok true := by
  obtain ⟨hc, g1, g2, g3⟩ := generateRandomSudoku_inv rnd fuel "hard" k puzzle solution k2 h
  have h25 : countFilled puzzle = 25 := by rw [g2]; rfl
  refine ⟨h25, ?_, ?_, ?_⟩
  · intro i hi j hj hne
    rcases g3 i hi j hj with h1 | h1
    · exact absurd h1 hne
    · exact h1
  · rw [isSudokuCorrect_of_grid9 g1 hc.1, decide_eq_false]
    intro hsame
    have heq : puzzle = solution := board_ext g1 hc.1 hsame
    have h81 := countFilled_full hc.1 hc.2.1
    rw [← heq, h25] at h81
    omega
  · obtain ⟨b1, h1, h2, -, h4⟩ :=
      fillFromSolution_post parseInt hparse hc allPositions puzzle g1 g3 allPositions_lt
    refine ⟨b1, h1, ?_⟩
    rw [isSudokuCorrect_of_grid9 h2 hc.1, decide_eq_true]
    intro i hi j hj
    exact h4 i hi j hj (Or.inr (mem_allPositions hi hj))

theorem sampleParseInt_digit (d : Nat) (h1 : 1 ≤ d) (h9 : d ≤ 9) :
    sampleParseInt (toString d) = some (d : Int) := by
  interval_cases d <;> rfl

set_option maxRecDepth 1000000 in
/-- Witness of C6: the pair produced under `sampleStream`, read with `sampleParseInt`. -/
theorem generateRandomSudoku_hard_scenario_witness :
    generateRandomSudoku sampleStream 82 "hard" 0 =
      .ok ((sampleHardPuzzle, sampleSolution), 760) ∧
    countFilled sampleHardPuzzle = 25 ∧
    isSudokuCorrect sampleHardPuzzle sampleSolution = .ok false ∧
    fillFromSolution sampleParseInt sampleSolution allPositions sampleHardPuzzle =
      .ok sampleSolution ∧
    isSudokuCorrect sampleSolution sampleSolution = .ok true :=
  ⟨rfl,
    (generateRandomSudoku_hard_scenario sampleStream 82 0 sampleHardPuzzle sampleSolution 760
      sampleParseInt sampleParseInt_digit rfl).1,
    (generateRandomSudoku_hard_scenario sampleStream 82 0 sampleHardPuzzle sampleSolution 760
      sampleParseInt sampleParseInt_digit rfl).2.2.1, rfl, rfl⟩

/-- C11: on a stored 9x9 puzzle and a position in range, `handleCellInput`
changes no puzzle cell other than `(row, col)` and leaves the solution grid and
the difficulty as they are; when the parsed input is not an integer of 1..9 the
puzzle grid is unchanged, and when it is an integer `v` of 1..9 the cell
`(row, col)` becomes `v`, whatever the solution holds there. -/
theorem handleCellInputOn_frame (parseInt : String → Option Int) (s : Session) (row col : Nat)
    (input : InputCell) (hg : Grid9 s.sudokuBoard) (hrow : row < 9) (hcol : col < 9) :
    ∃ s1 shown, handleCellInputOn parseInt s row col input = .ok (s1, shown) ∧
      s1.solutionBoard = s.solutionBoard ∧ s1.difficulty = s.difficulty ∧
      Grid9 s1.sudokuBoard ∧
      (∀ i < 9, ∀ j < 9, ¬ (i = row ∧ j = col) →
        cell s1.sudokuBoard i j = cell s.sudokuBoard i j) ∧
      ((parseInt input.value = none ∨
          ∃ v, parseInt input.value = some v ∧ ¬ (1 ≤ v ∧ v ≤ 9)) →
        s1.sudokuBoard = s.sudokuBoard) ∧
      (∀ v, parseInt input.value = some v → 1 ≤ v → v ≤ 9 →
        cell s1.sudokuBoard row col = some v.toNat) := by
  unfold handleCellInputOn
  by_cases hv : ∃ v, parseInt input.value = some v ∧ 1 ≤ v ∧ v ≤ 9
  · obtain ⟨v, hp, h1, h9⟩ := hv
    rw [handleCellInput_valid parseInt hg hrow hcol input v hp h1 h9]
    refine ⟨_, _, rfl, rfl, rfl, grid9_put hg _ _ _, ?_, ?_, ?_⟩
    · intro i _ j _ hne
      show cell (put s.sudokuBoard row col _) i j = _
      rw [cell_put hg hrow hcol, if_neg hne]
    · rintro (h | ⟨w, hw, hnot⟩)
      · rw [h] at hp; cases hp
      · rw [hw] at hp; cases hp; exact absurd ⟨h1, h9⟩ hnot
    · intro w hw _ _
      rw [hw] at hp; cases hp
      show cell (put s.sudokuBoard row col _) row col = _
      rw [cell_put hg hrow hcol, if_pos ⟨rfl, rfl⟩]
  · have hinv : parseInt input.value = none ∨
        ∃ v, parseInt input.value = some v ∧ ¬ (1 ≤ v ∧ v ≤ 9) := by
      cases hp : parseInt input.value with
      | none => exact Or.inl rfl
      | some v => exact Or.inr ⟨v, rfl, fun h => hv ⟨v, hp, h⟩⟩
    rw [handleCellInput_invalid parseInt _ row col input hinv]
    refine ⟨_, _, rfl, rfl, rfl, hg, fun _ _ _ _ _ => rfl, fun _ => rfl, ?_⟩
    intro v hp h1 h9
    exact absurd ⟨v, hp, h1, h9⟩ hv

set_option maxRecDepth 100000 in
/-- Witness of C11: the text `5` typed at position (0, 0) of `sampleHardPuzzle`
stored next to `sampleSolution`, whose cell there holds 1. -/
theorem handleCellInputOn_frame_witness :
    Grid9 sampleHardPuzzle ∧ cell sampleSolution 0 0 = some 1 ∧
    ∃ s1 shown, handleCellInputOn sampleParseInt ⟨sampleHardPuzzle, sampleSolution, "hard"⟩ 0 0
        ⟨"5", false⟩ = .ok (s1, shown) ∧
      s1.solutionBoard = sampleSolution ∧ cell s1.sudokuBoard 0 0 = some 5 := by
  obtain ⟨s1, shown, h1, h2, -, -, -, -, h7⟩ :=
    handleCellInputOn_frame sampleParseInt ⟨sampleHardPuzzle, sampleSolution, "hard"⟩ 0 0
      ⟨"5", false⟩ (by decide) (by decide) (by decide)
  exact ⟨by decide, rfl, s1, shown, h1, h2, h7 5 rfl (by decide) (by decide)⟩

/-- C12: for every array and every stream of random draws, `shuffleArray`
returns a permutation of its input, of the same length and with the same number
of occurrences of every element; the candidate list of `generateRandomSolution`
holds exactly the digits 1..9, each once. -/
theorem shuffleArray_permutation {α : Type} [DecidableEq α] (rnd : Nat → Nat) (array : List α)
    (k : Nat) :
    List.Perm (shuffleArray rnd array k).1 array ∧
    (shuffleArray rnd array k).1.length = array.length ∧
    (∀ x, (shuffleArray rnd array k).1.count x = array.count x) ∧
    (∀ d, d ∈ (shuffleArray rnd ((List.range BOARD_SIZE).map (· + 1)) k).1 ↔ 1 ≤ d ∧ d ≤ 9) ∧
    (∀ d, 1 ≤ d → d ≤ 9 →
      (shuffleArray rnd ((List.range BOARD_SIZE).map (· + 1)) k).1.count d = 1) := by
  have hp := shuffleArray_perm rnd array k
  refine ⟨hp, hp.length_eq, fun x => hp.count_eq x, mem_shuffled_digits rnd k, ?_⟩
  intro d h1 h9
  rw [(shuffleArray_perm rnd _ k).count_eq]
  simp only [BOARD_SIZE]
  interval_cases d <;> rfl

theorem consistent_put {b : Board} {row col num : Nat} (hg : Grid9 b) (hrow : row < 9)
    (hcol : col < 9) (hc : Consistent b) (ha : Absent b row col num) :
    Consistent (put b row col (some num)) := by
  intro i hi j hj i1 hi1 j1 hj1 ⟨hne, heq, hu⟩
  rw [cell_put hg hrow hcol] at hne heq
  rw [cell_put hg hrow hcol] at heq
  by_cases h1 : i = row ∧ j = col
  · by_cases h2 : i1 = row ∧ j1 = col
    · exact ⟨h1.1.trans h2.1.symm, h1.2.trans h2.2.symm⟩
    · rw [if_pos h1, if_neg h2] at heq
      obtain ⟨rfl, rfl⟩ := h1
      exact absurd heq.symm (absent_unit ha hi1 hj1 hu)
  · by_cases h2 : i1 = row ∧ j1 = col
    · rw [if_neg h1, if_pos h2] at heq
      obtain ⟨rfl, rfl⟩ := h2
      refine absurd heq (absent_unit ha hi hj ?_)
      rcases hu with h | h | h
      · exact Or.inl h.symm
      · exact Or.inr (Or.inl h.symm)
      · exact Or.inr (Or.inr ⟨h.1.symm, h.2.symm⟩)
    · rw [if_neg h1] at hne heq
      rw [if_neg h2] at heq
      exact hc i hi j hj i1 hi1 j1 hj1 ⟨hne, heq, hu⟩

/-- C19: on a 9x9 board in which no digit occurs twice in a row, a column or an
aligned 3x3 box, at an empty position in range and for a digit of 1..9, if
`isValidMove` returns `true` then the assignment `board[row][col] = num` yields
a board in which again no digit occurs twice in a row, a column or a box. -/
theorem isValidMove_preserves_consistent (board : Board) (row col num : Nat) (hg : Grid9 board)
    (hcons : Consistent board) (hrow : row < 9) (hcol : col < 9)
    (_hempty : cell board row col = none) (_hnum : 1 ≤ num ∧ num ≤ 9)
    (hvalid : isValidMove board row col num = .ok true) :
    ∃ board1, setCell board row col (some num) = .ok board1 ∧ Grid9 board1 ∧
      Consistent board1 := by
  rw [isValidMove_of_grid9 hg hrow hcol] at hvalid
  have ha : Absent board row col num := by
    have : decide (Absent board row col num) = true := by injection hvalid
    exact of_decide_eq_true this
  exact ⟨_, setCell_of_grid9 hg hrow hcol _, grid9_put hg _ _ _,
    consistent_put hg hrow hcol hcons ha⟩

set_option maxRecDepth 100000 in
/-- Witness of C19: digit 5 placed at position (4, 4) of `loneFive`. -/
theorem isValidMove_preserves_consistent_witness :
    Consistent loneFive ∧ isValidMove loneFive 4 4 5 = .ok true ∧
    ∃ board1, setCell loneFive 4 4 (some 5) = .ok board1 ∧ Grid9 board1 ∧ Consistent board1 :=
  ⟨by decide, rfl,
    isValidMove_preserves_consistent loneFive 4 4 5 (by decide) (by decide) (by decide)
      (by decide) (by decide) (by decide) rfl⟩

theorem emptyFrom_put {b : Board} {row col : Nat} (hg : Grid9 b) (hrow : row < 9)
    (hcol : col < 9) (he : EmptyFrom b (9 * col + row)) (v : Cell) :
    EmptyFrom (put b row col v) (9 * col + row + 1) := by
  intro i hi j hj hle
  rw [cell_put hg hrow hcol, if_neg (by intro h; rw [h.1, h.2] at hle; omega)]
  exact he i hi j hj (by omega)

/-- The candidate loop on a board whose cells from the target on are empty: when
it returns `false` the board is as before, and every candidate was rejected by
`isValidMove` or led to a recursive call that returned `false`. -/
theorem tryNumbers_restore (recur : Board → Nat → Except Fault (Bool × Board × Nat))
    {row col : Nat} (hrow : row < 9) (hcol : col < 9)
    (hrec : ∀ b1 k r b2 k2, Grid9 b1 → EmptyFrom b1 (9 * col + row + 1) →
      recur b1 k = .ok (r, b2, k2) → Grid9 b2 ∧ (r = false → b2 = b1)) :
    ∀ (nums : List Nat) (b : Board) (k : Nat) (r : Bool) (b1 : Board) (k1 : Nat), Grid9 b →
      EmptyFrom b (9 * col + row) → tryNumbers recur row col nums b k = .ok (r, b1, k1) →
      Grid9 b1 ∧ (r = false → b1 = b ∧ ∀ d ∈ nums, isValidMove b row col d = .ok false ∨
        ∃ ka b2 kb, recur (put b row col (some d)) ka = .ok (false, b2, kb)) := by
  intro nums
  induction nums with
  | nil =>
    intro b k r b1 k1 hg _ h
    cases h
    exact ⟨hg, fun _ => ⟨rfl, by simp⟩⟩
  | cons num rest ih =>
    intro b k r b1 k1 hg he h
    have hcell : cell b row col = none := he row hrow col hcol (le_refl _)
    unfold tryNumbers at h
    cases hv : isValidMove b row col num with
    | error e => rw [hv] at h; cases h
    | ok v =>
      rw [hv] at h
      cases v with
      | false =>
        simp only at h
        obtain ⟨g1, g2⟩ := ih b k r b1 k1 hg he h
        refine ⟨g1, fun hr => ⟨(g2 hr).1, ?_⟩⟩
        intro d hd
        rcases List.mem_cons.1 hd with rfl | hd
        · exact Or.inl hv
        · exact (g2 hr).2 d hd
      | true =>
        simp only at h
        rw [setCell_of_grid9 hg hrow hcol] at h
        simp only at h
        have hg1 := grid9_put hg row col (some num)
        have he1 := emptyFrom_put hg hrow hcol he (some num)
        cases hr : recur (put b row col (some num)) k with
        | error e => rw [hr] at h; cases h
        | ok res =>
          obtain ⟨r2, b2, k2⟩ := res
          obtain ⟨g1, g2⟩ := hrec _ k r2 b2 k2 hg1 he1 hr
          rw [hr] at h
          cases r2 with
          | true =>
            simp only at h
            cases h
            exact ⟨g1, fun h => by cases h⟩
          | false =>
            simp only at h
            have hb2 := g2 rfl
            subst hb2
            rw [setCell_of_grid9 hg1 hrow hcol, EMPTY_CELL, put_put_none hg hrow hcol _ hcell]
              at h
            simp only at h
            obtain ⟨g3, g4⟩ := ih b k2 r b1 k1 hg he h
            refine ⟨g3, fun hr1 => ⟨(g4 hr1).1, ?_⟩⟩
            intro d hd
            rcases List.mem_cons.1 hd with rfl | hd
            · exact Or.inr ⟨k, _, k2, hr⟩
            · exact (g4 hr1).2 d hd

theorem generate_restore (rnd : Nat → Nat) :
    ∀ (fuel : Nat) (b : Board) (row col k : Nat) (r : Bool) (b1 : Board) (k1 : Nat), Grid9 b →
      row ≤ 9 → col < 9 → EmptyFrom b (9 * col + row) →
      generateRandomSolution rnd fuel b row col k = .ok (r, b1, k1) →
      Grid9 b1 ∧ (r = false → b1 = b) := by
  intro fuel
  induction fuel with
  | zero => intro b row col k r b1 k1 _ _ _ _ h; cases h
  | succ fuel ih =>
    intro b row col k r b1 k1 hg hrow hcol he h
    unfold generateRandomSolution at h
    simp only [BOARD_SIZE] at h
    by_cases hend : row = 9 ∧ (if row = 9 then col + 1 else col) = 9
    · rw [if_pos hend] at h
      cases h
      exact ⟨hg, fun h => by cases h⟩
    · rw [if_neg hend] at h
      have hrow1 : (if row = 9 then 0 else row) < 9 := by split <;> omega
      have hcol1 : (if row = 9 then col + 1 else col) < 9 := by
        by_cases h9 : row = 9
        · rw [if_pos h9]
          have : col + 1 ≠ 9 := fun h => hend ⟨h9, by rw [if_pos h9]; exact h⟩
          omega
        · rw [if_neg h9]; exact hcol
      have hpos : 9 * (if row = 9 then col + 1 else col) + (if row = 9 then 0 else row)
          = 9 * col + row := by split <;> omega
      have he1 : EmptyFrom b
          (9 * (if row = 9 then col + 1 else col) + (if row = 9 then 0 else row)) := by
        rw [hpos]; exact he
      have := tryNumbers_restore _ hrow1 hcol1
        (fun b2 k2 r2 b3 k3 hg2 he2 h2 => ih b2 _ _ k2 r2 b3 k3 hg2 (by omega) hcol1 he2 h2)
        _ b _ r b1 k1 hg he1 h
      exact ⟨this.1, fun hr => (this.2 hr).1⟩

/-! ## Backtracking search -/

/-- C17: on a 9x9 board whose cells at and after `(row, col)` in traversal
order are all empty, whatever the random draws, if
`generateRandomSolution(board, row, col)` returns `false` then the board it
leaves is the board it was given, cell for cell. -/
theorem generateRandomSolution_restores (rnd : Nat → Nat) (fuel : Nat) (board : Board)
    (row col k : Nat) (board1 : Board) (k1 : Nat) (hg : Grid9 board) (hrow : row ≤ 9)
    (hcol : col < 9) (hempty : ∀ i < 9, ∀ j < 9, 9 * col + row ≤ 9 * j + i → cell board i j = none)
    (h : generateRandomSolution rnd fuel board row col k = .ok (false, board1, k1)) :
    board1 = board ∧ ∀ i < 9, ∀ j < 9, cell board1 i j = cell board i j := by
  have := (generate_restore rnd fuel board row col k false board1 k1 hg hrow hcol hempty h).2 rfl
  exact ⟨this, fun i _ j _ => by rw [this]⟩

/-- Witness of C17: at position (0, 8) of `undoBoard` the first candidate, 2, is
accepted and stored; the recursive call at (1, 8) returns `false` with the 2
still in place; the same happens for each of the six accepted digits, and the
call at (0, 8) returns `false` with the board as it was given, cell (0, 8)
empty again. -/
theorem generateRandomSolution_restores_witness :
    Grid9 undoBoard ∧ cell undoBoard 0 8 = none ∧
    (shuffleArray (fun _ => 0) ((List.range BOARD_SIZE).map (· + 1)) 0).1.head? = some 2 ∧
    isValidMove undoBoard 0 8 2 = .ok true ∧
    setCell undoBoard 0 8 (some 2) = .ok (put undoBoard 0 8 (some 2)) ∧
    cell (put undoBoard 0 8 (some 2)) 0 8 = some 2 ∧
    generateRandomSolution (fun _ => 0) 1 (put undoBoard 0 8 (some 2)) 1 8 8 =
      .ok (false, put undoBoard 0 8 (some 2), 16) ∧
    generateRandomSolution (fun _ => 0) 2 undoBoard 0 8 0 = .ok (false, undoBoard, 56) ∧
    ∀ i < 9, ∀ j < 9, cell undoBoard i j = cell undoBoard i j :=
  ⟨by decide, rfl, rfl, rfl, rfl, rfl, rfl, rfl,
    (generateRandomSolution_restores (fun _ => 0) 2 undoBoard 0 8 0 undoBoard 56
      (by decide) (by decide) (by decide) (by decide) rfl).2⟩

/-- C16: on a 9x9 board whose cells before `(row, col)` in traversal order are
filled with digits of 1..9 without duplicate in a row, a column or a box and
whose other cells are empty, for every stream of random draws and enough fuel,
`generateRandomSolution(board, row, col)` returns a boolean, which is `true` if
and only if some complete valid grid extends the filled cells; and when it is
`false`, each of the 9 digits was rejected by `isValidMove` at the current cell
or led to a recursive call that returned `false`. -/
theorem generateRandomSolution_exhaustive (rnd : Nat → Nat) (fuel : Nat) (board : Board)
    (row col k : Nat) (hrow : row ≤ 9) (hcol : col < 9)
    (hp : Partial board (9 * col + row)) (hfuel : 81 < fuel + (9 * col + row)) :
    ∃ r board1 k1, generateRandomSolution rnd fuel board row col k = .ok (r, board1, k1) ∧
      (r = true ↔ ∃ s, Complete s ∧ Extends board s) ∧
      (r = false → ∀ d, 1 ≤ d → d ≤ 9 →
        isValidMove board (if row = 9 then 0 else row) (if row = 9 then col + 1 else col) d
            = .ok false ∨
        ∃ ka b2 kb, generateRandomSolution rnd (fuel - 1)
          (put board (if row = 9 then 0 else row) (if row = 9 then col + 1 else col) (some d))
          ((if row = 9 then 0 else row) + 1) (if row = 9 then col + 1 else col) ka
            = .ok (false, b2, kb)) := by
  rcases generate_post rnd fuel board row col k hrow hcol hp with
    ⟨-, h2⟩ | ⟨r, b1, k1, h1, h2, h3⟩
  · omega
  · refine ⟨r, b1, k1, h1, ⟨fun hr => ⟨b1, h3 hr⟩, fun hs => ?_⟩, ?_⟩
    · cases r with
      | true => rfl
      | false => exact absurd hs (h2 rfl).2
    · intro hr
      subst hr
      have hempty : EmptyFrom board (9 * col + row) := by
        intro i hi j hj hle
        by_contra hne
        have := (hp.2.1 i hi j hj).1 hne
        omega
      obtain ⟨fuel, rfl⟩ : ∃ f, fuel = f + 1 := ⟨fuel - 1, by omega⟩
      simp only [Nat.add_sub_cancel]
      unfold generateRandomSolution at h1
      simp only [BOARD_SIZE] at h1
      by_cases hend : row = 9 ∧ (if row = 9 then col + 1 else col) = 9
      · rw [if_pos hend] at h1
        cases h1
      · rw [if_neg hend] at h1
        have hrow1 : (if row = 9 then 0 else row) < 9 := by split <;> omega
        have hcol1 : (if row = 9 then col + 1 else col) < 9 := by
          by_cases h9 : row = 9
          · rw [if_pos h9]
            have : col + 1 ≠ 9 := fun h => hend ⟨h9, by rw [if_pos h9]; exact h⟩
            omega
          · rw [if_neg h9]; exact hcol
        have hpos : 9 * (if row = 9 then col + 1 else col) + (if row = 9 then 0 else row)
            = 9 * col + row := by split <;> omega
        have he1 : EmptyFrom board
            (9 * (if row = 9 then col + 1 else col) + (if row = 9 then 0 else row)) := by
          rw [hpos]; exact hempty
        have := tryNumbers_restore _ hrow1 hcol1
          (fun b2 k2 r2 b3 k3 hg2 he2 h2 =>
            generate_restore rnd fuel b2 _ _ k2 r2 b3 k3 hg2 (by omega) hcol1 he2 h2)
          _ board _ false b1 k1 hp.1 he1 h1
        intro d hd1 hd9
        exact (this.2 rfl).2 d ((mem_shuffled_digits rnd k d).2 ⟨hd1, hd9⟩)

/-- Witness of C16 at the empty board, position (0, 0), with 82 units of fuel. -/
theorem generateRandomSolution_exhaustive_witness :
    Partial emptyBoard (9 * 0 + 0) ∧
    ∃ r board1 k1, generateRandomSolution (fun _ => 0) 82 emptyBoard 0 0 0 = .ok (r, board1, k1) ∧
      (r = true ↔ ∃ s, Complete s ∧ Extends emptyBoard s) :=
  ⟨partial_emptyBoard,
    (generateRandomSolution_exhaustive (fun _ => 0) 82 emptyBoard 0 0 0 (by decide) (by decide)
      partial_emptyBoard (by decide)).imp fun _ h => h.imp fun _ h => h.imp fun _ h => ⟨h.1, h.2.1⟩⟩

set_option maxRecDepth 1000000 in
/-- C14: two streams of random draws on which `generateRandomSolution`, started
on the all-empty board at (0, 0), returns `true` with two different completed
grids. -/
theorem generateRandomSolution_two_grids :
    ∃ rnd1 rnd2 b1 b2 k1 k2,
      generateRandomSolution rnd1 82 emptyBoard 0 0 0 = .ok (true, b1, k1) ∧
      generateRandomSolution rnd2 82 emptyBoard 0 0 0 = .ok (true, b2, k2) ∧
      Full b1 ∧ Full b2 ∧ b1 ≠ b2 :=
  ⟨sampleChoices, otherChoices, sampleSolution, otherSolution, 648, 648, rfl, rfl,
    by decide, by decide, by decide⟩

theorem initialiseBoard_inv (rnd : Nat → Nat) (fuel : Nat) (s : Session) (k : Nat)
    (s1 : Session) (views : List (List InputCell)) (k1 : Nat)
    (h : initialiseBoard rnd fuel s k = .ok (s1, views, k1)) :
    s1.difficulty = s.difficulty ∧
    generateRandomSudoku rnd fuel s.difficulty k = .ok ((s1.sudokuBoard, s1.solutionBoard), k1) := by
  unfold initialiseBoard at h
  split at h
  · cases h
  · rename_i p sol k2 hgen
    split at h
    · cases h
    · cases h
      exact ⟨rfl, hgen⟩

/-! ## Session -/

/-- C15: from every prior state of the globals, for every tier `t` and every
stream of random draws, when `changeDifficulty(t)` returns, the stored
difficulty is `t` and the two stored grids are the pair that
`generateRandomSudoku` produces for `t`, whatever the prior grids were: the
stored solution is a complete valid grid, and the stored puzzle has exactly
`clueCount(t)` non-empty cells (55, 40, 25, default 55), each equal to the
stored solution at its position.  The initial load does the same from the
initial globals, with difficulty `'easy'` and 55 clues. -/
theorem changeDifficulty_replaces (rnd : Nat → Nat) (fuel : Nat) (s : Session) (t : String)
    (k : Nat) (s1 : Session) (views : List (List InputCell)) (k1 : Nat)
    (h : changeDifficulty rnd fuel s t k = .ok (s1, views, k1)) :
    s1.difficulty = t ∧
    generateRandomSudoku rnd fuel t k = .ok ((s1.sudokuBoard, s1.solutionBoard), k1) ∧
    ValidSolution s1.solutionBoard ∧ Grid9 s1.sudokuBoard ∧
    countFilled s1.sudokuBoard =
      (if t = "easy" then 55 else if t = "medium" then 40 else if t = "hard" then 25 else 55) ∧
    (∀ i < 9, ∀ j < 9, cell s1.sudokuBoard i j ≠ none →
      cell s1.sudokuBoard i j = cell s1.solutionBoard i j) ∧
    (∀ s2 views2 k2, initialiseBoard rnd fuel initialSession k = .ok (s2, views2, k2) →
      s2.difficulty = "easy" ∧ ValidSolution s2.solutionBoard ∧
      countFilled s2.sudokuBoard = 55 ∧
      ∀ i < 9, ∀ j < 9, cell s2.sudokuBoard i j ≠ none →
        cell s2.sudokuBoard i j = cell s2.solutionBoard i j) := by
  have key : ∀ (d : String) (p sol : Board) (k2 : Nat),
      generateRandomSudoku rnd fuel d k = .ok ((p, sol), k2) →
      ValidSolution sol ∧ Grid9 p ∧ countFilled p = cellsToKeep d ∧
      ∀ i < 9, ∀ j < 9, cell p i j ≠ none → cell p i j = cell sol i j := by
    intro d p sol k2 hgen
    obtain ⟨hc, g1, g2, g3⟩ := generateRandomSudoku_inv rnd fuel d k p sol k2 hgen
    refine ⟨validSolution_of_complete hc, g1, g2, ?_⟩
    intro i hi j hj hne
    rcases g3 i hi j hj with h1 | h1
    · exact absurd h1 hne
    · exact h1
  obtain ⟨hd, hgen⟩ := initialiseBoard_inv rnd fuel _ k s1 views k1 h
  obtain ⟨a1, a2, a3, a4⟩ := key t _ _ _ hgen
  refine ⟨hd, hgen, a1, a2, a3, a4, ?_⟩
  intro s2 views2 k2 h2
  obtain ⟨hd2, hgen2⟩ := initialiseBoard_inv rnd fuel _ k s2 views2 k2 h2
  obtain ⟨c1, -, c3, c4⟩ := key "easy" _ _ _ hgen2
  exact ⟨hd2, c1, c3, c4⟩

set_option maxRecDepth 1000000 in
/-- Witness of C15: from globals holding an edited board, `changeDifficulty('hard')`
under `sampleStream` stores `sampleHardPuzzle` and `sampleSolution`. -/
theorem changeDifficulty_replaces_witness :
    changeDifficulty sampleStream 82 ⟨loneFive, otherSolution, "easy"⟩ "hard" 0 =
      .ok (⟨sampleHardPuzzle, sampleSolution, "hard"⟩,
        (List.range 9).map (fun i => (List.range 9).map fun j => inputFor (cell sampleHardPuzzle i j)),
        760) ∧
    countFilled sampleHardPuzzle = 25 ∧ ValidSolution sampleSolution :=
  ⟨rfl,
    (changeDifficulty_replaces sampleStream 82 ⟨loneFive, otherSolution, "easy"⟩ "hard" 0
      ⟨sampleHardPuzzle, sampleSolution, "hard"⟩ _ 760 rfl).2.2.2.2.1,
    (changeDifficulty_replaces sampleStream 82 ⟨loneFive, otherSolution, "easy"⟩ "hard" 0
      ⟨sampleHardPuzzle, sampleSolution, "hard"⟩ _ 760 rfl).2.2.1⟩

theorem swapAt_length {α : Type} (a : List α) (i j : Nat) : (swapAt a i j).length = a.length :=
  (swapAt_perm a i j).length_eq

theorem swapAt_getElem?_left {α : Type} (a : List α) {i j : Nat} (hi : i < a.length)
    (hj : j < a.length) : (swapAt a i j)[i]? = a[j]? := by
  unfold swapAt
  rw [List.getElem?_eq_getElem hi, List.getElem?_eq_getElem hj]
  simp only
  by_cases h : j = i
  · subst h
    simp [List.getElem?_set, hj]
  · rw [List.getElem?_set_ne h]
    simp [List.getElem?_set, hi, hj]

theorem swapAt_getElem?_of_gt {α : Type} (a : List α) {i j m : Nat} (hi : i < m) (hj : j < m) :
    (swapAt a i j)[m]? = a[m]? := by
  unfold swapAt
  split
  · rw [List.getElem?_set_ne (by omega), List.getElem?_set_ne (by omega)]
  · rfl

theorem shuffleLoop_getElem?_of_gt {α : Type} (rnd : Nat → Nat) :
    ∀ (i : Nat) (a : List α) (k m : Nat), i < m → (shuffleLoop rnd i a k).1[m]? = a[m]?
  | 0, a, k, m, _ => by simp [shuffleLoop]
  | i + 1, a, k, m, h => by
    unfold shuffleLoop
    rw [shuffleLoop_getElem?_of_gt rnd i _ _ m (by omega)]
    have : rnd k % (i + 1 + 1) < i + 1 + 1 := Nat.mod_lt _ (by omega)
    exact swapAt_getElem?_of_gt a h (by omega)

theorem shuffleLoop_congr {α : Type} (rnd rnd1 : Nat → Nat) :
    ∀ (i : Nat) (a : List α) (k k1 : Nat),
      (∀ t < i, rnd (k + t) % (i - t + 1) = rnd1 (k1 + t) % (i - t + 1)) →
      (shuffleLoop rnd i a k).1 = (shuffleLoop rnd1 i a k1).1
  | 0, a, k, k1, _ => rfl
  | i + 1, a, k, k1, h => by
    unfold shuffleLoop
    have h0 := h 0 (by omega)
    simp only [Nat.add_zero, Nat.sub_zero] at h0
    simp only [h0]
    apply shuffleLoop_congr rnd rnd1 i
    intro t ht
    have := h (t + 1) (by omega)
    rw [show i + 1 - (t + 1) = i - t by omega] at this
    rw [show k + 1 + t = k + (t + 1) by omega, show k1 + 1 + t = k1 + (t + 1) by omega]
    exact this

theorem shuffleLoop_inj {α : Type} (rnd rnd1 : Nat → Nat) :
    ∀ (i : Nat) (a : List α) (k k1 : Nat), a.Nodup → i < a.length →
      (shuffleLoop rnd i a k).1 = (shuffleLoop rnd1 i a k1).1 →
      ∀ t < i, rnd (k + t) % (i - t + 1) = rnd1 (k1 + t) % (i - t + 1)
  | 0, _, _, _, _, _, _ => fun t ht => absurd ht (Nat.not_lt_zero t)
  | i + 1, a, k, k1, hnd, hlen, heq => by
    unfold shuffleLoop at heq
    have hj : rnd k % (i + 1 + 1) < i + 1 + 1 := Nat.mod_lt _ (by omega)
    have hj1 : rnd1 k1 % (i + 1 + 1) < i + 1 + 1 := Nat.mod_lt _ (by omega)
    have e1 := shuffleLoop_getElem?_of_gt rnd i (swapAt a (i + 1) (rnd k % (i + 1 + 1)))
      (k + 1) (i + 1) (by omega)
    have e2 := shuffleLoop_getElem?_of_gt rnd1 i (swapAt a (i + 1) (rnd1 k1 % (i + 1 + 1)))
      (k1 + 1) (i + 1) (by omega)
    simp only at heq
    rw [heq, e2, swapAt_getElem?_left a hlen (by omega)] at e1
    rw [swapAt_getElem?_left a hlen (by omega)] at e1
    have hjj : rnd k % (i + 1 + 1) = rnd1 k1 % (i + 1 + 1) := by
      rw [List.getElem?_eq_getElem (by omega), List.getElem?_eq_getElem (by omega)] at e1
      have e3 : a[rnd1 k1 % (i + 1 + 1)] = a[rnd k % (i + 1 + 1)] := by injection e1
      exact ((List.Nodup.getElem_inj_iff hnd).1 e3).symm
    rw [hjj] at heq
    have ih := shuffleLoop_inj rnd rnd1 i (swapAt a (i + 1) (rnd1 k1 % (i + 1 + 1))) (k + 1)
      (k1 + 1) ((swapAt_perm a _ _).nodup_iff.2 hnd) (by rw [swapAt_length]; omega) heq
    intro t ht
    cases t with
    | zero => simpa using hjj
    | succ t =>
      have := ih t (by omega)
      rw [show i + 1 - (t + 1) = i - t by omega]
      rw [show k + 1 + t = k + (t + 1) by omega, show k1 + 1 + t = k1 + (t + 1) by omega] at this
      exact this


theorem streamOf_mod (v : SwapIndices) (t : Nat) (ht : t < 8) :
    streamOf v t % (8 - t + 1) = (v ⟨t, ht⟩).val := by
  unfold streamOf
  rw [dif_pos ht]
  have := (v ⟨t, ht⟩).isLt
  apply Nat.mod_eq_of_lt
  simp only at this
  omega

theorem shuffleWith_indicesOf {α : Type} (rnd : Nat → Nat) (k : Nat) (array : List α)
    (hlen : array.length = 9) : shuffleWith (indicesOf rnd k) array = (shuffleArray rnd array k).1 := by
  unfold shuffleWith shuffleArray
  rw [hlen]
  apply shuffleLoop_congr
  intro t ht
  have ht8 : t < 8 := ht
  rw [show 9 - 1 - t + 1 = 8 - t + 1 from rfl, Nat.zero_add, streamOf_mod _ t ht8]
  simp only [indicesOf]
  rw [show 9 - t = 8 - t + 1 by omega]

theorem shuffleWith_injective {α : Type} (array : List α) (hlen : array.length = 9)
    (hnd : array.Nodup) : Function.Injective fun v : SwapIndices => shuffleWith v array := by
  intro v w h
  simp only [shuffleWith, shuffleArray, hlen] at h
  have := shuffleLoop_inj (streamOf v) (streamOf w) 8 array 0 0 hnd (by omega) h
  funext t
  have ht := this t.val t.isLt
  simp only [Nat.zero_add] at ht
  rw [streamOf_mod v _ t.isLt, streamOf_mod w _ t.isLt] at ht
  exact Fin.ext ht

theorem card_swapIndices : Fintype.card SwapIndices = Nat.factorial 9 := by
  rw [Fintype.card_pi]
  simp only [Fintype.card_fin]
  rfl

/-! ## Shuffle -/

/-- C13: on an array of 9 distinct elements, the array returned by
`shuffleArray` is determined by the vector of swap indices `(j_8, ..., j_1)`
drawn, `0 ≤ j_i ≤ i`; there are `9!` such vectors; and the map from these
vectors to the returned array is injective with the permutations of the input
as its range, so every permutation comes from exactly one vector. -/
theorem shuffleArray_bijection {α : Type} (array : List α) (hlen : array.length = 9)
    (hnd : array.Nodup) :
    (∀ rnd k, (shuffleArray rnd array k).1 = shuffleWith (indicesOf rnd k) array) ∧
    Fintype.card SwapIndices = Nat.factorial 9 ∧
    Function.Injective (fun v : SwapIndices => shuffleWith v array) ∧
    (∀ l : List α, List.Perm l array ↔ ∃ v : SwapIndices, shuffleWith v array = l) ∧
    (∀ l : List α, List.Perm l array → ∃! v : SwapIndices, shuffleWith v array = l) := by
  classical
  have hinj := shuffleWith_injective array hlen hnd
  have hsurj : ∀ l : List α, List.Perm l array → ∃ v : SwapIndices, shuffleWith v array = l := by
    intro l hl
    have hsub : (Finset.univ.image fun v : SwapIndices => shuffleWith v array) ⊆
        array.permutations.toFinset := by
      intro x hx
      obtain ⟨v, -, rfl⟩ := Finset.mem_image.1 hx
      rw [List.mem_toFinset, List.mem_permutations]
      exact shuffleArray_perm _ _ _
    have hcard : array.permutations.toFinset.card ≤
        (Finset.univ.image fun v : SwapIndices => shuffleWith v array).card := by
      rw [Finset.card_image_of_injective _ hinj, Finset.card_univ, card_swapIndices,
        List.toFinset_card_of_nodup (List.nodup_permutations _ hnd), List.length_permutations,
        hlen]
    have heq := Finset.eq_of_subset_of_card_le hsub hcard
    have hmem : l ∈ array.permutations.toFinset := by
      rw [List.mem_toFinset, List.mem_permutations]; exact hl
    rw [← heq] at hmem
    obtain ⟨v, -, hv⟩ := Finset.mem_image.1 hmem
    exact ⟨v, hv⟩
  refine ⟨fun rnd k => (shuffleWith_indicesOf rnd k array hlen).symm, card_swapIndices, hinj,
    fun l => ⟨hsurj l, ?_⟩, fun l hl => ?_⟩
  · rintro ⟨v, rfl⟩
    exact shuffleArray_perm _ _ _
  · obtain ⟨v, hv⟩ := hsurj l hl
    exact ⟨v, hv, fun w hw => hinj (hw.trans hv.symm)⟩

/-- Witness of C13 on the array of the digits 1..9. -/
theorem shuffleArray_bijection_witness :
    ((List.range 9).map (· + 1)).length = 9 ∧ ((List.range 9).map (· + 1)).Nodup ∧
    Function.Injective (fun v : SwapIndices => shuffleWith v ((List.range 9).map (· + 1))) ∧
    Fintype.card SwapIndices = 362880 :=
  ⟨by decide, by decide,
    (shuffleArray_bijection ((List.range 9).map (· + 1)) (by decide) (by decide)).2.2.1,
    (shuffleArray_bijection ((List.range 9).map (· + 1)) (by decide) (by decide)).2.1⟩

theorem dropEvents_withEvents {α : Type} (evs : List Event) (x : Except Fault (α × List Event)) :
    dropEvents (withEvents evs x) = dropEvents x := by
  cases x with
  | error e => rfl
  | ok p => rfl

theorem tryNumbersTraced_drop
    (recur : Board → Nat → Except Fault ((Bool × Board × Nat) × List Event)) (row col : Nat) :
    ∀ (nums : List Nat) (b : Board) (k : Nat),
      dropEvents (tryNumbersTraced recur row col nums b k) =
        tryNumbers (fun b1 k1 => dropEvents (recur b1 k1)) row col nums b k := by
  intro nums
  induction nums with
  | nil => intro b k; rfl
  | cons num rest ih =>
    intro b k
    unfold tryNumbersTraced tryNumbers
    rw [dropEvents_withEvents]
    cases hv : isValidMove b row col num with
    | error e => rfl
    | ok v =>
      cases v with
      | false => exact ih b k
      | true =>
        simp only
        cases hs : setCell b row col (some num) with
        | error e => rfl
        | ok b1 =>
          simp only
          cases hr : recur b1 k with
          | error e => rfl
          | ok x =>
            obtain ⟨⟨r, b2, k2⟩, evs1⟩ := x
            cases r with
            | true => rfl
            | false =>
              simp only [dropEvents]
              cases hs2 : setCell b2 row col EMPTY_CELL with
              | error e => rfl
              | ok b3 =>
                simp only
                exact (dropEvents_withEvents _ _).trans (ih b3 k2)

theorem generateTraced_drop (rnd : Nat → Nat) :
    ∀ (fuel : Nat) (b : Board) (row col k : Nat),
      dropEvents (generateTraced rnd fuel b row col k) =
        generateRandomSolution rnd fuel b row col k := by
  intro fuel
  induction fuel with
  | zero => intro b row col k; rfl
  | succ fuel ih =>
    intro b row col k
    unfold generateTraced generateRandomSolution
    simp only
    by_cases hend : row = BOARD_SIZE ∧ (if row = BOARD_SIZE then col + 1 else col) = BOARD_SIZE
    · rw [if_pos hend, if_pos hend]; rfl
    · rw [if_neg hend, if_neg hend]
      have hfun : (fun b1 k1 => generateRandomSolution rnd fuel b1
          ((if row = BOARD_SIZE then 0 else row) + 1)
          (if row = BOARD_SIZE then col + 1 else col) k1) =
          fun b1 k1 => dropEvents (generateTraced rnd fuel b1
            ((if row = BOARD_SIZE then 0 else row) + 1)
            (if row = BOARD_SIZE then col + 1 else col) k1) := by
        funext b1 k1
        exact (ih b1 _ _ k1).symm
      rw [hfun, ← tryNumbersTraced_drop, dropEvents_withEvents]


theorem withEvents_ok {α : Type} {evs0 : List Event} {x : Except Fault (α × List Event)} {r : α}
    {evs : List Event} (h : withEvents evs0 x = .ok (r, evs)) :
    ∃ evs1, x = .ok (r, evs1) ∧ evs = evs0 ++ evs1 := by
  cases x with
  | error e => cases h
  | ok p =>
    obtain ⟨r1, evs1⟩ := p
    cases h
    exact ⟨evs1, rfl, rfl⟩

theorem dropEvents_ok {α : Type} {x : Except Fault (α × List Event)} {r : α}
    (h : dropEvents x = .ok r) : ∃ evs, x = .ok (r, evs) := by
  cases x with
  | error e => cases h
  | ok p =>
    obtain ⟨r1, evs1⟩ := p
    cases h
    exact ⟨evs1, rfl⟩

theorem emptyFrom_of_filledBefore {b : Board} {p : Nat} (h : FilledBefore b p) :
    EmptyFrom b p := by
  intro i hi j hj hle
  by_contra hne
  have := (h i hi j hj).1 hne
  omega

/-- Every event of the traced candidate loop is in order, if every event of the
recursive calls is. -/
theorem tryNumbersTraced_inOrder
    (recur : Board → Nat → Except Fault ((Bool × Board × Nat) × List Event))
    {row col : Nat} (hrow : row < 9) (hcol : col < 9)
    (hrecR : ∀ b1 k r b2 k2 evs, Grid9 b1 → EmptyFrom b1 (9 * col + row + 1) →
      recur b1 k = .ok ((r, b2, k2), evs) → r = false → b2 = b1)
    (hrecG : ∀ b1 k res evs, Partial b1 (9 * col + row + 1) → recur b1 k = .ok (res, evs) →
      ∀ e ∈ evs, Event.InOrder e) :
    ∀ (nums : List Nat), (∀ d ∈ nums, 1 ≤ d ∧ d ≤ 9) →
      ∀ (b : Board) (k : Nat) (res : Bool × Board × Nat) (evs : List Event),
      Partial b (9 * col + row) → tryNumbersTraced recur row col nums b k = .ok (res, evs) →
      ∀ e ∈ evs, Event.InOrder e := by
  intro nums
  induction nums with
  | nil =>
    intro _ b k res evs _ h e he
    cases h
    simp at he
  | cons num rest ih =>
    intro hn b k res evs hp h
    have hrest : ∀ d ∈ rest, 1 ≤ d ∧ d ≤ 9 := fun d hd => hn d (List.mem_cons_of_mem _ hd)
    have hg := hp.1
    have hcell : cell b row col = none := target_empty hrow hcol hp.2.1
    have hcheck : Event.InOrder (.check b row col num) :=
      ⟨hrow, hcol, hp.2.1, hn num (List.mem_cons_self _ _)⟩
    unfold tryNumbersTraced at h
    obtain ⟨evs1, h1, rfl⟩ := withEvents_ok h
    rw [isValidMove_of_grid9 hg hrow hcol] at h1
    have hall : (∀ e ∈ evs1, Event.InOrder e) →
        ∀ e ∈ [Event.check b row col num] ++ evs1, Event.InOrder e := by
      intro hx e he
      rcases List.mem_append.1 he with he | he
      · rw [List.mem_singleton.1 he]; exact hcheck
      · exact hx e he
    apply hall
    by_cases ha : Absent b row col num
    · rw [decide_eq_true ha] at h1
      simp only at h1
      rw [setCell_of_grid9 hg hrow hcol] at h1
      simp only at h1
      have hp1 := partial_put hrow hcol hp (hn num (List.mem_cons_self _ _)) ha
      cases hr : recur (put b row col (some num)) k with
      | error e => rw [hr] at h1; cases h1
      | ok x =>
        obtain ⟨⟨r, b2, k2⟩, evs2⟩ := x
        rw [hr] at h1
        have hgood := hrecG _ k _ evs2 hp1 hr
        cases r with
        | true =>
          simp only at h1
          cases h1
          exact hgood
        | false =>
          simp only at h1
          have hb2 := hrecR _ k false b2 k2 evs2 hp1.1 (emptyFrom_of_filledBefore hp1.2.1) hr rfl
          subst hb2
          rw [setCell_of_grid9 hp1.1 hrow hcol, EMPTY_CELL, put_put_none hg hrow hcol _ hcell]
            at h1
          simp only at h1
          obtain ⟨evs3, h3, rfl⟩ := withEvents_ok h1
          intro e he
          rcases List.mem_append.1 he with he | he
          · exact hgood e he
          · exact ih hrest b k2 res evs3 hp h3 e he
    · rw [decide_eq_false ha] at h1
      simp only at h1
      exact ih hrest b k res evs1 hp h1

/-- Every event of a traced run from a board filled exactly before `(row, col)`
is in order. -/
theorem generateTraced_inOrder (rnd : Nat → Nat) :
    ∀ (fuel : Nat) (b : Board) (row col k : Nat) (res : Bool × Board × Nat)
      (evs : List Event), row ≤ 9 → col < 9 → Partial b (9 * col + row) →
      generateTraced rnd fuel b row col k = .ok (res, evs) → ∀ e ∈ evs, Event.InOrder e := by
  intro fuel
  induction fuel with
  | zero => intro b row col k res evs _ _ _ h; cases h
  | succ fuel ih =>
    intro b row col k res evs hrow hcol hp h
    unfold generateTraced at h
    simp only [BOARD_SIZE] at h
    by_cases hend : row = 9 ∧ (if row = 9 then col + 1 else col) = 9
    · rw [if_pos hend] at h
      cases h
      intro e he
      simp at he
    · rw [if_neg hend] at h
      have hrow1 : (if row = 9 then 0 else row) < 9 := by split <;> omega
      have hcol1 : (if row = 9 then col + 1 else col) < 9 := by
        by_cases h9 : row = 9
        · rw [if_pos h9]
          have : col + 1 ≠ 9 := fun h => hend ⟨h9, by rw [if_pos h9]; exact h⟩
          omega
        · rw [if_neg h9]; exact hcol
      have hpos : 9 * (if row = 9 then col + 1 else col) + (if row = 9 then 0 else row)
          = 9 * col + row := by split <;> omega
      have hp1 : Partial b
          (9 * (if row = 9 then col + 1 else col) + (if row = 9 then 0 else row)) := by
        rw [hpos]; exact hp
      obtain ⟨evs1, h1, rfl⟩ := withEvents_ok h
      have hloop := tryNumbersTraced_inOrder _ hrow1 hcol1
        (fun b1 k1 r b2 k2 evs2 hg1 he1 hr hf => by
          have hd := generateTraced_drop rnd fuel b1 ((if row = 9 then 0 else row) + 1)
            (if row = 9 then col + 1 else col) k1
          rw [hr] at hd
          exact (generate_restore rnd fuel b1 _ _ k1 r b2 k2 hg1 (by omega) hcol1 he1
            hd.symm).2 hf)
        (fun b1 k1 res1 evs2 hb1 hr => ih b1 _ _ k1 res1 evs2 (by omega) hcol1 hb1 hr)
        _ (fun d hd => (mem_shuffled_digits rnd k d).1 hd) b _ res evs1 hp1 h1
      intro e he
      rcases List.mem_append.1 he with he | he
      · rw [List.mem_singleton.1 he]
        exact ⟨hrow1, hcol1, hp1.2.1⟩
      · exact hloop e he

theorem filledBefore_iff {b : Board} {r c : Nat} (hr : r < 9) (h : FilledBefore b (9 * c + r)) :
    ∀ i < 9, ∀ j < 9, (cell b i j ≠ none ↔ (j < c ∨ (j = c ∧ i < r))) := by
  intro i hi j hj
  rw [h i hi j hj]
  omega


/-! ## Traversal order and index safety -/

/-- C18: the traced run agrees with `generateRandomSolution`; started on the
all-empty board at (0, 0) with enough fuel, whatever the random draws, it
returns `true` with a full board, its first event is the visit of the cell
(0, 0) of the empty board, and at every call that goes on to try digits at a
cell `(row, col)`, as at every invocation of `isValidMove`, `row` and `col` are
in 0..8, exactly the cells `(r, c)` with `c < col`, or `c = col` and `r < row`, are
filled, and the target cell is empty. -/
theorem generateRandomSolution_traversal (rnd : Nat → Nat) (fuel k : Nat) (hfuel : 82 ≤ fuel) :
    (∀ f b row col k1, dropEvents (generateTraced rnd f b row col k1) =
      generateRandomSolution rnd f b row col k1) ∧
    ∃ b1 k1 evs, generateTraced rnd fuel emptyBoard 0 0 k = .ok ((true, b1, k1), evs) ∧
      Full b1 ∧ evs.head? = some (.visit emptyBoard 0 0) ∧
      (∀ b row col, Event.visit b row col ∈ evs → row < 9 ∧ col < 9 ∧ cell b row col = none ∧
        ∀ r < 9, ∀ c < 9, (cell b r c ≠ none ↔ (c < col ∨ (c = col ∧ r < row)))) ∧
      (∀ b row col num, Event.check b row col num ∈ evs → row < 9 ∧ col < 9 ∧
        cell b row col = none ∧
        ∀ r < 9, ∀ c < 9, (cell b r c ≠ none ↔ (c < col ∨ (c = col ∧ r < row)))) := by
  refine ⟨generateTraced_drop rnd, ?_⟩
  rcases generate_empty_cases rnd fuel k with ⟨-, h2⟩ | ⟨b1, k1, h1, hc⟩
  · omega
  · rw [← generateTraced_drop] at h1
    obtain ⟨evs, hev⟩ := dropEvents_ok h1
    have hgood := generateTraced_inOrder rnd fuel emptyBoard 0 0 k _ evs (by omega) (by omega)
      partial_emptyBoard hev
    refine ⟨b1, k1, evs, hev, hc.2.1, ?_, ?_, ?_⟩
    · obtain ⟨f, rfl⟩ : ∃ f, fuel = f + 1 := ⟨fuel - 1, by omega⟩
      unfold generateTraced at hev
      simp only [BOARD_SIZE] at hev
      rw [if_neg (by decide)] at hev
      obtain ⟨evs1, -, rfl⟩ := withEvents_ok hev
      rfl
    · intro b row col hmem
      obtain ⟨hr, hcl, hf⟩ := hgood _ hmem
      exact ⟨hr, hcl, target_empty hr hcl hf, filledBefore_iff hr hf⟩
    · intro b row col num hmem
      obtain ⟨hr, hcl, hf, -⟩ := hgood _ hmem
      exact ⟨hr, hcl, target_empty hr hcl hf, filledBefore_iff hr hf⟩

/-- Witness of C18 at the constant stream of draws and 82 units of fuel. -/
theorem generateRandomSolution_traversal_witness :
    82 ≤ 82 ∧ ∃ b1 k1 evs,
      generateTraced (fun _ => 0) 82 emptyBoard 0 0 0 = .ok ((true, b1, k1), evs) ∧
      evs.head? = some (.visit emptyBoard 0 0) :=
  ⟨by decide,
    (generateRandomSolution_traversal (fun _ => 0) 82 0 (by decide)).2.imp fun _ h =>
      h.imp fun _ h => h.imp fun _ h => ⟨h.1, h.2.2.1⟩⟩

/-- C20: on a 9x9 board and `row`, `col` in 0..8, the box origin
`(row - row % 3, col - col % 3)` lies in `{0, 3, 6} x {0, 3, 6}`, the nine cells
scanned by `isNumberInBox` are inside the grid and are exactly the cells of the
aligned 3x3 block containing `(row, col)`, and `isValidMove` and `isNumberInBox`
return a boolean, that is, read no cell outside the grid; and the run of
`generateRandomSolution` from the empty board at (0, 0) never accesses the board
out of bounds: all its visits and checks have `row` and `col` in 0..8. -/
theorem index_safety (board : Board) (row col num : Nat) (hg : Grid9 board) (hrow : row < 9)
    (hcol : col < 9) :
    ((row - row % 3 = 0 ∨ row - row % 3 = 3 ∨ row - row % 3 = 6) ∧
      (col - col % 3 = 0 ∨ col - col % 3 = 3 ∨ col - col % 3 = 6)) ∧
    (∀ i < 3, ∀ j < 3, row - row % 3 + i < 9 ∧ col - col % 3 + j < 9 ∧
      ∃ c, cellAt board (row - row % 3 + i) (col - col % 3 + j) = .ok c) ∧
    (∀ r c, (∃ i < 3, ∃ j < 3, r = row - row % 3 + i ∧ c = col - col % 3 + j) ↔
      (r / 3 = row / 3 ∧ c / 3 = col / 3)) ∧
    (isValidMove board row col num = .ok true ∨ isValidMove board row col num = .ok false) ∧
    (isNumberInBox board (row - row % 3) (col - col % 3) num = .ok true ∨
      isNumberInBox board (row - row % 3) (col - col % 3) num = .ok false) ∧
    (∀ rnd fuel k, generateRandomSolution rnd fuel emptyBoard 0 0 k ≠ .error .outOfBounds) ∧
    (∀ rnd fuel k res evs, generateTraced rnd fuel emptyBoard 0 0 k = .ok (res, evs) →
      (∀ b r c, Event.visit b r c ∈ evs → r < 9 ∧ c < 9) ∧
      (∀ b r c n, Event.check b r c n ∈ evs → r < 9 ∧ c < 9)) := by
  refine ⟨⟨by omega, by omega⟩, ?_, ?_, ?_, ?_, ?_, ?_⟩
  · intro i hi j hj
    exact ⟨by omega, by omega, _, cellAt_of_grid9 hg (by omega) (by omega)⟩
  · intro r c
    constructor
    · rintro ⟨i, hi, j, hj, rfl, rfl⟩
      omega
    · rintro ⟨h1, h2⟩
      exact ⟨r - (row - row % 3), by omega, c - (col - col % 3), by omega, by omega, by omega⟩
  · rw [isValidMove_of_grid9 hg hrow hcol]
    by_cases h : Absent board row col num
    · exact Or.inl (by rw [decide_eq_true h])
    · exact Or.inr (by rw [decide_eq_false h])
  · rw [isNumberInBox_of_grid9 hg (by omega) (by omega)]
    by_cases h : BoxFree board (row - row % 3) (col - col % 3) num
    · exact Or.inr (by rw [decide_eq_true h]; rfl)
    · exact Or.inl (by rw [decide_eq_false h]; rfl)
  · intro rnd fuel k h
    rcases generate_empty_cases rnd fuel k with ⟨h1, -⟩ | ⟨b1, k1, h1, -⟩
    · rw [h1] at h; cases h
    · rw [h1] at h; cases h
  · intro rnd fuel k res evs h
    have hgood := generateTraced_inOrder rnd fuel emptyBoard 0 0 k res evs (by omega) (by omega)
      partial_emptyBoard h
    exact ⟨fun b r c hm => ⟨(hgood _ hm).1, (hgood _ hm).2.1⟩,
      fun b r c n hm => ⟨(hgood _ hm).1, (hgood _ hm).2.1⟩⟩

/-- Witness of C20 at position (4, 7) of `sampleSolution`, whose box has origin (3, 6). -/
theorem index_safety_witness :
    Grid9 sampleSolution ∧ 4 - 4 % 3 = 3 ∧ 7 - 7 % 3 = 6 ∧
    (isValidMove sampleSolution 4 7 3 = .ok true ∨ isValidMove sampleSolution 4 7 3 = .ok false) :=
  ⟨by decide, rfl, rfl, (index_safety sampleSolution 4 7 3 (by decide) (by decide)
    (by decide)).2.2.2.1⟩

end Sudoku
